import Mathlib

/-!
Verification of the quiz-generator server (src/server/routes.ts, which also
contains the MemStorage class, and the question-generation service in
src/unnamed/part_000) against its natural-language specification.

The embedding is shallow: the in-memory JS `Map`s of `MemStorage` are
association lists accessed only through `mapGet` / `mapSet` / `mapDelete`
(get returns the value at the first matching key, set replaces in place or
appends, delete removes every entry with the key — on the duplicate-free
lists a JS `Map` produces these agree exactly with `Map.get` / `Map.set` /
`Map.delete`).  Wall-clock timestamp fields (`createdAt`, `joinedAt`,
`answeredAt`) are omitted: no claim mentions them and `Date` values are
outside the model.  JS numbers carried by requests are modelled as `Int`
(ids and list positions, generated internally as consecutive naturals, as
`Nat`).  Randomness (`Math.random` in `generateRoomCode`) and the external
OpenRouter call in `generateQuizQuestions` are modelled as explicit oracle
parameters: a pick function per attempt for the former, an
`Option (List RawQuestion)` for the latter (`none` = any network / parse /
structure failure, `some qs` = a response whose extracted JSON held the
list `qs`).
-/

set_option linter.unusedVariables false
set_option linter.unreachableTactic false
set_option linter.unusedTactic false

namespace QuizGen

/-! ### Association-list model of the JS `Map` -/

def mapGet {α β : Type} [DecidableEq α] (k : α) : List (α × β) → Option β
  | [] => none
  | e :: rest => if e.1 = k then some e.2 else mapGet k rest

def mapSet {α β : Type} [DecidableEq α] (k : α) (v : β) : List (α × β) → List (α × β)
  | [] => [(k, v)]
  | e :: rest => if e.1 = k then (k, v) :: rest else e :: mapSet k v rest

def mapDelete {α β : Type} [DecidableEq α] (k : α) (m : List (α × β)) : List (α × β) :=
  m.filter (fun e => decide (e.1 ≠ k))

def mapValues {α β : Type} (m : List (α × β)) : List β :=
  m.map Prod.snd

/-- Stable sort; models the JS `Array.prototype.sort` with a comparator
(V8's sort is stable, and so is insertion sort). -/
def insertSorted {α : Type} (le : α → α → Bool) (x : α) : List α → List α
  | [] => [x]
  | y :: ys => if le x y then x :: y :: ys else y :: insertSorted le x ys

def sortBy {α : Type} (le : α → α → Bool) : List α → List α
  | [] => []
  | x :: xs => insertSorted le x (sortBy le xs)

/-! ### Data model (shared/schema.ts, timestamp fields omitted) -/

inductive RoomStatus
  | waiting
  | active
  | finished
deriving DecidableEq

structure QuizRoom where
  id : Nat
  roomCode : String
  hostId : String
  topic : String
  questionCount : Nat
  timePerQuestion : Int
  status : RoomStatus
  currentQuestionIndex : Nat
deriving DecidableEq

structure Question where
  id : Nat
  roomId : Nat
  questionText : String
  options : List String
  correctAnswer : Int
  order : Nat
deriving DecidableEq

structure Player where
  id : Nat
  roomId : Nat
  name : String
  playerId : String
  score : Int
  isHost : Bool
deriving DecidableEq

structure Answer where
  id : Nat
  playerId : String
  questionId : Nat
  selectedAnswer : Int
  isCorrect : Bool
  timeToAnswer : Int
deriving DecidableEq

structure InsertQuizRoom where
  roomCode : String
  hostId : String
  topic : String
  questionCount : Nat
  timePerQuestion : Int
  status : RoomStatus
  currentQuestionIndex : Nat
deriving DecidableEq

structure InsertQuestion where
  roomId : Nat
  questionText : String
  options : List String
  correctAnswer : Int
  order : Nat
deriving DecidableEq

structure InsertPlayer where
  roomId : Nat
  name : String
  playerId : String
  score : Int
  isHost : Bool
deriving DecidableEq

structure InsertAnswer where
  playerId : String
  questionId : Nat
  selectedAnswer : Int
  isCorrect : Bool
  timeToAnswer : Int
deriving DecidableEq

/-- The private fields of `MemStorage`: four maps and four id counters. -/
structure St where
  quizRooms : List (String × QuizRoom)
  questions : List (Nat × Question)
  players : List (String × Player)
  answers : List (Nat × Answer)
  currentRoomId : Nat
  currentQuestionId : Nat
  currentPlayerId : Nat
  currentAnswerId : Nat
deriving DecidableEq

def St.empty : St :=
  { quizRooms := [], questions := [], players := [], answers := []
    currentRoomId := 1, currentQuestionId := 1, currentPlayerId := 1, currentAnswerId := 1 }

/-- JS `x || d` on a number (0 is the only falsy value the model represents). -/
def orDefaultInt (x d : Int) : Int :=
  if x = 0 then d else x

/-! ### MemStorage operations (src/server/routes.ts, MemStorage class) -/

def createQuizRoomSt (room : InsertQuizRoom) (s : St) : QuizRoom × St :=
  let newRoom : QuizRoom :=
    { id := s.currentRoomId
      roomCode := room.roomCode
      hostId := room.hostId
      topic := room.topic
      -- `room.questionCount || 10`
      questionCount := if room.questionCount = 0 then 10 else room.questionCount
      -- `room.timePerQuestion || 10`
      timePerQuestion := orDefaultInt room.timePerQuestion 10
      -- `room.status || 'waiting'`: status is an enum here, never the empty string
      status := room.status
      -- `room.currentQuestionIndex || 0`: the identity on numbers when the default is 0
      currentQuestionIndex := room.currentQuestionIndex }
  (newRoom,
    { s with quizRooms := mapSet room.roomCode newRoom s.quizRooms
             currentRoomId := s.currentRoomId + 1 })

def getQuizRoomByCode (roomCode : String) (s : St) : Option QuizRoom :=
  mapGet roomCode s.quizRooms

def getQuizRoomByPlayerId (playerId : String) (s : St) : Option QuizRoom :=
  match mapGet playerId s.players with
  | none => none
  | some player => (mapValues s.quizRooms).find? (fun room => decide (room.id = player.roomId))

def updateQuizRoomSt (roomCode : String) (upd : QuizRoom → QuizRoom) (s : St) :
    Option QuizRoom × St :=
  match mapGet roomCode s.quizRooms with
  | none => (none, s)
  | some room =>
      let updatedRoom := upd room
      (some updatedRoom, { s with quizRooms := mapSet roomCode updatedRoom s.quizRooms })

def createQuestionsSt : List InsertQuestion → St → List Question × St
  | [], s => ([], s)
  | q :: rest, s =>
      let newQuestion : Question :=
        { id := s.currentQuestionId, roomId := q.roomId, questionText := q.questionText
          options := q.options, correctAnswer := q.correctAnswer, order := q.order }
      let s1 := { s with questions := mapSet newQuestion.id newQuestion s.questions
                         currentQuestionId := s.currentQuestionId + 1 }
      let r := createQuestionsSt rest s1
      (newQuestion :: r.1, r.2)

def getQuestionsByRoomId (roomId : Nat) (s : St) : List Question :=
  sortBy (fun a b => decide (a.order ≤ b.order))
    ((mapValues s.questions).filter (fun q => decide (q.roomId = roomId)))

def getQuestionById (questionId : Nat) (s : St) : Option Question :=
  mapGet questionId s.questions

def createPlayerSt (player : InsertPlayer) (s : St) : Player × St :=
  let newPlayer : Player :=
    { id := s.currentPlayerId
      roomId := player.roomId
      name := player.name
      playerId := player.playerId
      -- `player.score || 0` and `player.isHost || false` are identities at these defaults
      score := player.score
      isHost := player.isHost }
  (newPlayer,
    { s with players := mapSet player.playerId newPlayer s.players
             currentPlayerId := s.currentPlayerId + 1 })

def getPlayersByRoomId (roomId : Nat) (s : St) : List Player :=
  sortBy (fun a b => decide (b.score ≤ a.score))
    ((mapValues s.players).filter (fun p => decide (p.roomId = roomId)))

def getPlayerById (playerId : String) (s : St) : Option Player :=
  mapGet playerId s.players

def updatePlayerScoreSt (playerId : String) (score : Int) (s : St) : Option Player × St :=
  match mapGet playerId s.players with
  | none => (none, s)
  | some player =>
      let updatedPlayer := { player with score := score }
      (some updatedPlayer, { s with players := mapSet playerId updatedPlayer s.players })

def createAnswerSt (answer : InsertAnswer) (s : St) : Answer × St :=
  let newAnswer : Answer :=
    { id := s.currentAnswerId, playerId := answer.playerId, questionId := answer.questionId
      selectedAnswer := answer.selectedAnswer, isCorrect := answer.isCorrect
      timeToAnswer := answer.timeToAnswer }
  (newAnswer,
    { s with answers := mapSet newAnswer.id newAnswer s.answers
             currentAnswerId := s.currentAnswerId + 1 })

def getAnswersByPlayerId (playerId : String) (s : St) : List Answer :=
  (mapValues s.answers).filter (fun a => decide (a.playerId = playerId))

def hasPlayerAnswered (playerId : String) (questionId : Nat) (s : St) : Bool :=
  (mapValues s.answers).any (fun a => decide (a.playerId = playerId) && decide (a.questionId = questionId))

def clearAnswersForPlayerSt (playerId : String) (s : St) : St :=
  let answersToDelete := (mapValues s.answers).filter (fun a => decide (a.playerId = playerId))
  { s with answers := answersToDelete.foldl (fun m a => mapDelete a.id m) s.answers }

def cleanupRoomSt (roomCode : String) (s : St) : Bool × St :=
  match mapGet roomCode s.quizRooms with
  | none => (false, s)
  | some room =>
      let roomPlayers := (mapValues s.players).filter (fun p => decide (p.roomId = room.id))
      let players1 := roomPlayers.foldl (fun m p => mapDelete p.playerId m) s.players
      let roomQuestions := (mapValues s.questions).filter (fun q => decide (q.roomId = room.id))
      let questions1 := roomQuestions.foldl (fun m q => mapDelete q.id m) s.questions
      -- the inner loop reads the current `this.answers` after earlier deletions,
      -- which the fold threads through `m`
      let answers1 := roomQuestions.foldl
        (fun m q =>
          let questionAnswers := (mapValues m).filter (fun a => decide (a.questionId = q.id))
          questionAnswers.foldl (fun m2 a => mapDelete a.id m2) m)
        s.answers
      (true,
        { s with quizRooms := mapDelete roomCode s.quizRooms
                 players := players1, questions := questions1, answers := answers1 })

def cleanupPlayerSt (playerId : String) (s : St) : Bool × St :=
  match mapGet playerId s.players with
  | none => (false, s)
  | some player =>
      let playerAnswers := (mapValues s.answers).filter (fun a => decide (a.playerId = playerId))
      let answers1 := playerAnswers.foldl (fun m a => mapDelete a.id m) s.answers
      (true, { s with answers := answers1, players := mapDelete playerId s.players })

/-! ### Question-generation service (src/unnamed/part_000) -/

structure RawQuestion where
  question : String
  options : List String
  correctAnswer : Int
deriving DecidableEq

structure GeneratedQuestion where
  question : String
  options : List String
  correctAnswer : Int
deriving DecidableEq

def FALLBACK_QUESTIONS : List GeneratedQuestion :=
  [ { question := "What is the capital of France?"
      options := ["London", "Berlin", "Paris", "Madrid"], correctAnswer := 2 },
    { question := "Which planet is known as the Red Planet?"
      options := ["Venus", "Mars", "Jupiter", "Saturn"], correctAnswer := 1 },
    { question := "What is the largest ocean on Earth?"
      options := ["Atlantic Ocean", "Indian Ocean", "Arctic Ocean", "Pacific Ocean"]
      correctAnswer := 3 },
    { question := "Who painted the Mona Lisa?"
      options := ["Vincent van Gogh", "Leonardo da Vinci", "Pablo Picasso", "Michelangelo"]
      correctAnswer := 1 },
    { question := "What is the chemical symbol for gold?"
      options := ["Ag", "Au", "Fe", "Cu"], correctAnswer := 1 },
    { question := "Which year did World War II end?"
      options := ["1943", "1944", "1945", "1946"], correctAnswer := 2 },
    { question := "What is the main component of the sun?"
      options := ["Liquid lava", "Molten iron", "Hot gases", "Solid rock"], correctAnswer := 2 },
    { question := "How many sides does a hexagon have?"
      options := ["5", "6", "7", "8"], correctAnswer := 1 },
    { question := "Which country is home to the kangaroo?"
      options := ["New Zealand", "South Africa", "Australia", "India"], correctAnswer := 2 },
    { question := "What is the largest mammal in the world?"
      options := ["African Elephant", "Blue Whale", "Giraffe", "Hippopotamus"]
      correctAnswer := 1 } ]

/-- The per-item validation in `generateQuizQuestions`; `!q.question` on a
string is true exactly for the empty string, the `Array.isArray` and
`typeof` checks are type-level here. -/
def invalidRawQuestion (q : RawQuestion) : Bool :=
  decide (q.question = "") || decide (q.options.length ≠ 4) ||
    decide (q.correctAnswer < 0) || decide (q.correctAnswer > 3)

/-- `generateQuizQuestions(topic, questionCount)`.  `upstream = none` models
every failure up to and including JSON extraction (network error, missing
`choices`, no JSON block, parse error, missing `questions` array);
`upstream = some qs` models a response that yielded the raw list `qs`.  A
validation failure inside the `map` throws and is caught by the same
`catch`, hence the fallback. -/
def generateQuizQuestions (topic : String) (questionCount : Nat)
    (upstream : Option (List RawQuestion)) : List GeneratedQuestion :=
  match upstream with
  | none => FALLBACK_QUESTIONS.take questionCount
  | some qs =>
      if qs.any invalidRawQuestion then
        FALLBACK_QUESTIONS.take questionCount
      else
        ((qs.map (fun q =>
          ({ question := q.question, options := q.options
             correctAnswer := q.correctAnswer } : GeneratedQuestion)))).take questionCount

/-! ### Request/response shapes (shared/schema.ts zod schemas; the zod
range checks happen before the handlers run, so the bounds appear as
hypotheses in the theorems that need them) -/

structure CreateQuizRequest where
  topic : String
  questionCount : Nat
  timePerQuestion : Int
  hostId : String
deriving DecidableEq

structure JoinQuizRequest where
  roomCode : String
  name : String
  playerId : String
deriving DecidableEq

structure SubmitAnswerRequest where
  playerId : String
  questionId : Nat
  selectedAnswer : Int
  timeToAnswer : Int
deriving DecidableEq

inductive CreateResult
  | codeExhausted
  | ok (roomCode : String) (room : QuizRoom)
deriving DecidableEq

inductive JoinResult
  | roomNotFound
  | alreadyStarted
  | alreadyJoined
  | ok (player : Player) (room : QuizRoom) (players : List Player)
deriving DecidableEq

inductive SubmitResult
  | playerNotFound
  | alreadyAnswered
  | questionNotFound
  | roomMismatch
  | ok (isCorrect : Bool) (points : Int) (totalScore : Int) (correctAnswer : Int)
deriving DecidableEq

inductive CleanupResult
  | notFound
  | forbidden
  | failed
  | ok
deriving DecidableEq

inductive LeaveResult
  | alreadyRemoved
  | failed
  | ok
deriving DecidableEq

/-! ### Room-code generation and the create handler -/

def ROOM_CODE_CHARS : List Char :=
  "ABCDEFGHIJKLMNOPQRSTUVWXYZ0123456789".toList

/-- `generateRoomCode`: six characters drawn from the 36-character alphabet;
the six `Math.floor(Math.random() * chars.length)` draws are the oracle
`pick`. -/
def generateRoomCode (pick : Fin 6 → Fin 36) : String :=
  String.mk ((List.finRange 6).map (fun i => ROOM_CODE_CHARS.getD (pick i).val 'A'))

/-- The code-allocation do/while loop of POST /api/quiz/create.  `attempts`
counts completed generations; the loop continues while the generated code is
taken and `attempts < 10`.  The structural `fuel` argument only bounds the
recursion and is started at 10, which the `attempts < 10` guard never
exceeds, so the 0 branch is unreachable from `allocRoomCode`. -/
def allocGo (gen : Nat → String) (taken : String → Bool) : Nat → Nat → Nat × String
  | 0, attempts => (attempts, "")
  | fuel + 1, attempts =>
      let code := gen attempts
      let a := attempts + 1
      if taken code && decide (a < 10) then allocGo gen taken fuel a else (a, code)

def allocRoomCode (gen : Nat → String) (taken : String → Bool) : Nat × String :=
  allocGo gen taken 10 0

/-- POST /api/quiz/create: allocate a unique code (500 after 10 attempts),
create the room in `waiting` status, generate and persist the questions,
create the host player. -/
def createQuizHandler (req : CreateQuizRequest) (picks : Nat → Fin 6 → Fin 36)
    (upstream : Option (List RawQuestion)) (s : St) : CreateResult × St :=
  let gen := fun k => generateRoomCode (picks k)
  let taken := fun code => (getQuizRoomByCode code s).isSome
  let alloc := allocRoomCode gen taken
  if alloc.1 ≥ 10 then (.codeExhausted, s)
  else
    let roomCode := alloc.2
    let r1 := createQuizRoomSt
      { roomCode := roomCode, hostId := req.hostId, topic := req.topic
        questionCount := req.questionCount, timePerQuestion := req.timePerQuestion
        status := .waiting, currentQuestionIndex := 0 } s
    let room := r1.1
    let generatedQuestions := generateQuizQuestions req.topic req.questionCount upstream
    let questionsToInsert := generatedQuestions.enum.map (fun p =>
      ({ roomId := room.id, questionText := p.2.question, options := p.2.options
         correctAnswer := p.2.correctAnswer, order := p.1 } : InsertQuestion))
    let r2 := createQuestionsSt questionsToInsert r1.2
    let r3 := createPlayerSt
      { roomId := room.id, name := "Host", playerId := req.hostId, score := 0, isHost := true }
      r2.2
    (.ok roomCode room, r3.2)

/-! ### Join, answer, clear-answers, cleanup, leave handlers -/

/-- The tail of POST /api/quiz/join shared by the fresh-join and the
rejoin-after-cleanup paths: create the player, then read the roster. -/
def joinFinish (req : JoinQuizRequest) (room : QuizRoom) (s : St) : JoinResult × St :=
  let r := createPlayerSt
    { roomId := room.id, name := req.name, playerId := req.playerId, score := 0, isHost := false } s
  (.ok r.1 room (getPlayersByRoomId room.id r.2), r.2)

def joinQuizHandler (req : JoinQuizRequest) (s : St) : JoinResult × St :=
  match getQuizRoomByCode req.roomCode s with
  | none => (.roomNotFound, s)
  | some room =>
      if room.status ≠ .waiting then (.alreadyStarted, s)
      else
        match getPlayerById req.playerId s with
        | some existingPlayer =>
            if existingPlayer.roomId = room.id then (.alreadyJoined, s)
            else joinFinish req room (cleanupPlayerSt req.playerId s).2
        | none => joinFinish req room s

def submitAnswerHandler (req : SubmitAnswerRequest) (s : St) : SubmitResult × St :=
  match getPlayerById req.playerId s with
  | none => (.playerNotFound, s)
  | some player =>
      if hasPlayerAnswered req.playerId req.questionId s then (.alreadyAnswered, s)
      else
        match getQuestionById req.questionId s with
        | none => (.questionNotFound, s)
        | some question =>
            if question.roomId ≠ player.roomId then (.roomMismatch, s)
            else
              let isCorrect := decide (req.selectedAnswer = question.correctAnswer)
              let points : Int :=
                if isCorrect then
                  let maxTime : Int :=
                    match getQuizRoomByPlayerId req.playerId s with
                    | some room => orDefaultInt room.timePerQuestion 10
                    | none => 10
                  let timeBonus := max 0 (maxTime - req.timeToAnswer)
                  100 + timeBonus * 10
                else 0
              let r1 := createAnswerSt
                { playerId := req.playerId, questionId := question.id
                  selectedAnswer := req.selectedAnswer, isCorrect := isCorrect
                  timeToAnswer := req.timeToAnswer } s
              let r2 := updatePlayerScoreSt req.playerId (player.score + points) r1.2
              -- `updatedPlayer?.score || 0`
              let totalScore := match r2.1 with
                | some p => orDefaultInt p.score 0
                | none => 0
              (.ok isCorrect points totalScore question.correctAnswer, r2.2)

def clearAnswersHandler (playerId : String) (s : St) : St :=
  clearAnswersForPlayerSt playerId s

def cleanupRoomRestHandler (roomCode : String) (playerId : String) (s : St) :
    CleanupResult × St :=
  match getQuizRoomByCode roomCode s with
  | none => (.notFound, s)
  | some room =>
      if room.hostId ≠ playerId then (.forbidden, s)
      else
        let r := cleanupRoomSt roomCode s
        if r.1 then (.ok, r.2) else (.failed, r.2)

def leaveHandler (playerId : String) (s : St) : LeaveResult × St :=
  match getPlayerById playerId s with
  | none => (.alreadyRemoved, s)
  | some _ =>
      let r := cleanupPlayerSt playerId s
      if r.1 then (.ok, r.2) else (.failed, r.2)

/-! ### Socket message handlers (store effects only; broadcasts carry no
store mutation).  Each carries the client-supplied fields it reads:
`cleanup-room` and the quiz-lifecycle messages gate on the self-reported
`isHost` flag and never compare `playerId` with the room's `hostId`. -/

def socketLeaveRoom (playerId : String) (s : St) : St :=
  (cleanupPlayerSt playerId s).2

def socketCleanupRoom (roomCode : String) (playerId : String) (isHost : Bool) (s : St) : St :=
  if isHost then (cleanupRoomSt roomCode s).2 else s

def socketStartQuiz (roomCode : String) (isHost : Bool) (s : St) : St :=
  if isHost then
    match getQuizRoomByCode roomCode s with
    | some _ => (updateQuizRoomSt roomCode (fun r => { r with status := .active }) s).2
    | none => s
  else s

def socketNextQuestion (roomCode : String) (isHost : Bool) (s : St) : St :=
  if isHost then
    match getQuizRoomByCode roomCode s with
    | some room =>
        let nextIndex := room.currentQuestionIndex + 1
        let questions := getQuestionsByRoomId room.id s
        if nextIndex < questions.length then
          (updateQuizRoomSt roomCode (fun r => { r with currentQuestionIndex := nextIndex }) s).2
        else
          (updateQuizRoomSt roomCode (fun r => { r with status := .finished }) s).2
    | none => s
  else s

def socketQuizFinished (roomCode : String) (isHost : Bool) (s : St) : St :=
  if isHost then
    match getQuizRoomByCode roomCode s with
    | some _ => (updateQuizRoomSt roomCode (fun r => { r with status := .finished }) s).2
    | none => s
  else s

/-! ### The controller operations as one step relation -/

inductive Op
  | createQuiz (req : CreateQuizRequest) (picks : Nat → Fin 6 → Fin 36)
      (upstream : Option (List RawQuestion))
  | joinQuiz (req : JoinQuizRequest)
  | submitAnswer (req : SubmitAnswerRequest)
  | clearAnswers (playerId : String)
  | cleanupRest (roomCode : String) (playerId : String)
  | leaveRest (playerId : String)
  | socketLeave (playerId : String)
  | socketCleanup (roomCode : String) (playerId : String) (isHost : Bool)
  | socketStart (roomCode : String) (isHost : Bool)
  | socketNext (roomCode : String) (isHost : Bool)
  | socketFinish (roomCode : String) (isHost : Bool)

def step : Op → St → St
  | .createQuiz req picks upstream, s => (createQuizHandler req picks upstream s).2
  | .joinQuiz req, s => (joinQuizHandler req s).2
  | .submitAnswer req, s => (submitAnswerHandler req s).2
  | .clearAnswers pid, s => clearAnswersHandler pid s
  | .cleanupRest code pid, s => (cleanupRoomRestHandler code pid s).2
  | .leaveRest pid, s => (leaveHandler pid s).2
  | .socketLeave pid, s => socketLeaveRoom pid s
  | .socketCleanup code pid host, s => socketCleanupRoom code pid host s
  | .socketStart code host, s => socketStartQuiz code host s
  | .socketNext code host, s => socketNextQuestion code host s
  | .socketFinish code host, s => socketQuizFinished code host s

def runOps (ops : List Op) (s : St) : St :=
  ops.foldl (fun t op => step op t) s

/-! ### Lemmas about the map model -/

theorem mapGet_some_mem {α β : Type} [DecidableEq α] {k : α} {v : β} :
    ∀ {m : List (α × β)}, mapGet k m = some v → (k, v) ∈ m := by
  intro m
  induction m with
  | nil => intro h; simp [mapGet] at h
  | cons e rest ih =>
      intro h
      obtain ⟨a, b⟩ := e
      by_cases he : a = k
      · subst he
        simp [mapGet] at h
        subst h
        exact List.mem_cons_self _ _
      · simp only [mapGet, he, if_neg, if_false] at h
        exact List.mem_cons_of_mem _ (ih h)

theorem mapGet_eq_none_iff {α β : Type} [DecidableEq α] {k : α} :
    ∀ {m : List (α × β)}, mapGet k m = none ↔ ∀ e ∈ m, e.1 ≠ k := by
  intro m
  induction m with
  | nil => simp [mapGet]
  | cons e rest ih =>
      by_cases he : e.1 = k
      · constructor
        · intro h
          simp [mapGet, he] at h
        · intro hall
          exact absurd he (hall e (List.mem_cons_self e rest))
      · simp only [mapGet, he, if_neg, if_false]
        rw [ih]
        constructor
        · intro h e' he'
          rcases List.mem_cons.mp he' with h' | h'
          · subst h'; exact he
          · exact h e' h'
        · intro h e' he'
          exact h e' (List.mem_cons_of_mem _ he')

theorem mapGet_of_mem_nodup {α β : Type} [DecidableEq α] {k : α} {v : β} :
    ∀ {m : List (α × β)}, (m.map Prod.fst).Nodup → (k, v) ∈ m → mapGet k m = some v := by
  intro m
  induction m with
  | nil => simp
  | cons e rest ih =>
      intro hnd hmem
      simp only [List.map_cons, List.nodup_cons] at hnd
      rcases List.mem_cons.mp hmem with h | h
      · subst h
        simp [mapGet]
      · have hne : e.1 ≠ k := by
          intro hk
          exact hnd.1 (by
            rw [hk]
            exact List.mem_map.mpr ⟨(k, v), h, rfl⟩)
        simp [mapGet, hne]
        exact ih hnd.2 h

theorem mapGet_mapSet_self {α β : Type} [DecidableEq α] {k : α} {v : β} :
    ∀ {m : List (α × β)}, mapGet k (mapSet k v m) = some v := by
  intro m
  induction m with
  | nil => simp [mapGet, mapSet]
  | cons e rest ih =>
      by_cases he : e.1 = k
      · simp [mapSet, he, mapGet]
      · simp [mapSet, he, mapGet, ih]

theorem mapGet_mapSet_ne {α β : Type} [DecidableEq α] {k k' : α} {v : β} (h : k' ≠ k) :
    ∀ {m : List (α × β)}, mapGet k' (mapSet k v m) = mapGet k' m := by
  intro m
  have h1 : ¬ (k = k') := fun hk => h hk.symm
  induction m with
  | nil => simp [mapGet, mapSet, h1]
  | cons e rest ih =>
      by_cases he : e.1 = k
      · have h2 : ¬ (e.1 = k') := by rw [he]; exact h1
        simp [mapSet, he, mapGet, h1, h2]
      · by_cases he' : e.1 = k'
        · simp [mapSet, he, mapGet, he', h]
        · simp [mapSet, he, mapGet, he', ih]

theorem mem_values_mapSet {α β : Type} [DecidableEq α] {k : α} {v x : β} :
    ∀ {m : List (α × β)}, x ∈ mapValues (mapSet k v m) → x = v ∨ x ∈ mapValues m := by
  intro m
  induction m with
  | nil => simp [mapSet, mapValues]
  | cons e rest ih =>
      intro h
      by_cases he : e.1 = k
      · simp [mapSet, he, mapValues] at h
        rcases h with h | h
        · exact Or.inl h
        · exact Or.inr (by simp [mapValues]; right; simpa [mapValues] using h)
      · simp [mapSet, he, mapValues] at h
        rcases h with h | h
        · exact Or.inr (by simp [mapValues, h])
        · rcases ih (by simpa [mapValues] using h) with h' | h'
          · exact Or.inl h'
          · exact Or.inr (by simp [mapValues]; right; simpa [mapValues] using h')

theorem keys_mapSet {α β : Type} [DecidableEq α] (k : α) (v : β) :
    ∀ (m : List (α × β)), (mapSet k v m).map Prod.fst = m.map Prod.fst ∨
      (mapSet k v m).map Prod.fst = m.map Prod.fst ++ [k] := by
  intro m
  induction m with
  | nil => right; simp [mapSet]
  | cons e rest ih =>
      by_cases he : e.1 = k
      · left; simp [mapSet, he]
      · rcases ih with h | h
        · left; simp [mapSet, if_neg he, h]
        · right; simp [mapSet, if_neg he, h]

theorem keys_mapSet_of_get_some {α β : Type} [DecidableEq α] {k : α} {v v' : β} :
    ∀ {m : List (α × β)}, mapGet k m = some v' →
      (mapSet k v m).map Prod.fst = m.map Prod.fst := by
  intro m
  induction m with
  | nil => intro h; simp [mapGet] at h
  | cons f tail ihh =>
      intro h2
      by_cases hf : f.1 = k
      · simp [mapSet, hf]
      · simp only [mapGet, hf, if_neg, if_false] at h2
        simp [mapSet, if_neg hf, ihh h2]

theorem keys_mapSet_nodup {α β : Type} [DecidableEq α] {k : α} {v : β}
    {m : List (α × β)} (hnd : (m.map Prod.fst).Nodup) :
    ((mapSet k v m).map Prod.fst).Nodup := by
  rcases keys_mapSet k v m with h | h
  · rw [h]; exact hnd
  · rw [h]
    have hk : k ∉ m.map Prod.fst := by
      intro hmem
      rcases List.mem_map.mp hmem with ⟨e, hem, hefst⟩
      rcases h2 : mapGet k m with _ | v'
      · exact (mapGet_eq_none_iff.mp h2) e hem hefst
      · -- when the key is present, mapSet replaces in place and keys are unchanged,
        -- contradicting the append shape
        have hlen : ((mapSet k v m).map Prod.fst).length = (m.map Prod.fst).length := by
          rw [keys_mapSet_of_get_some h2]
        rw [h] at hlen
        simp at hlen
    simp [List.nodup_append, hnd, hk]

theorem mem_mapDelete {α β : Type} [DecidableEq α] {k : α} {e : α × β} {m : List (α × β)} :
    e ∈ mapDelete k m ↔ e ∈ m ∧ e.1 ≠ k := by
  simp [mapDelete, List.mem_filter]

theorem mapGet_mapDelete_self {α β : Type} [DecidableEq α] {k : α} {m : List (α × β)} :
    mapGet k (mapDelete k m) = none := by
  rw [mapGet_eq_none_iff]
  intro e he
  exact (mem_mapDelete.mp he).2

theorem mapDelete_sublist {α β : Type} [DecidableEq α] (k : α) (m : List (α × β)) :
    (mapDelete k m).Sublist m :=
  List.filter_sublist m

theorem foldl_mapDelete_sublist {α β γ : Type} [DecidableEq α] (f : γ → α) :
    ∀ (L : List γ) (m : List (α × β)),
      (L.foldl (fun acc x => mapDelete (f x) acc) m).Sublist m := by
  intro L
  induction L with
  | nil => intro m; simp
  | cons x xs ih =>
      intro m
      simp only [List.foldl_cons]
      exact (ih (mapDelete (f x) m)).trans (mapDelete_sublist (f x) m)

theorem mem_foldl_mapDelete {α β γ : Type} [DecidableEq α] (f : γ → α) :
    ∀ (L : List γ) (m : List (α × β)) (e : α × β),
      e ∈ L.foldl (fun acc x => mapDelete (f x) acc) m → e ∈ m ∧ ∀ x ∈ L, e.1 ≠ f x := by
  intro L
  induction L with
  | nil => intro m e h; simpa using h
  | cons x xs ih =>
      intro m e h
      simp only [List.foldl_cons] at h
      have h1 := ih (mapDelete (f x) m) e h
      have h2 := mem_mapDelete.mp h1.1
      refine ⟨h2.1, ?_⟩
      intro y hy
      rcases List.mem_cons.mp hy with h' | h'
      · subst h'; exact h2.2
      · exact h1.2 y h'

theorem countP_values_mapSet {α β : Type} [DecidableEq α] {k : α} {v : β} (p : β → Bool) :
    ∀ {m : List (α × β)},
      (mapValues (mapSet k v m)).countP p ≤ (mapValues m).countP p + (if p v then 1 else 0) := by
  intro m
  induction m with
  | nil => simp [mapSet, mapValues, List.countP_cons]
  | cons e rest ih =>
      by_cases he : e.1 = k
      · simp only [mapSet, he, if_pos, mapValues, List.map_cons, List.countP_cons]
        by_cases hv : p v <;> by_cases hpe : p e.2 <;> simp [hv, hpe, mapValues] <;> try omega
      · simp only [mapSet, he, if_neg, mapValues, List.map_cons, List.countP_cons]
        by_cases hpe : p e.2 <;> simp [hpe, mapValues] at ih ⊢ <;> omega

theorem mapSet_eq_append {α β : Type} [DecidableEq α] {k : α} {v : β} :
    ∀ {m : List (α × β)}, mapGet k m = none → mapSet k v m = m ++ [(k, v)] := by
  intro m
  induction m with
  | nil => simp [mapSet]
  | cons e rest ih =>
      intro h
      have he : e.1 ≠ k := by
        intro hk
        simp [mapGet, hk] at h
      simp only [mapGet, he, if_neg] at h
      simp [mapSet, he, ih h]

theorem mem_insertSorted {α : Type} (le : α → α → Bool) (y x : α) :
    ∀ (l : List α), x ∈ insertSorted le y l ↔ x = y ∨ x ∈ l := by
  intro l
  induction l with
  | nil => simp [insertSorted]
  | cons z zs ih =>
      by_cases h : le y z
      · simp [insertSorted, h]
      · simp [insertSorted, h, ih]
        tauto

theorem mem_sortBy {α : Type} (le : α → α → Bool) (x : α) :
    ∀ (l : List α), x ∈ sortBy le l ↔ x ∈ l := by
  intro l
  induction l with
  | nil => simp [sortBy]
  | cons z zs ih => simp [sortBy, mem_insertSorted, ih]

theorem mapDelete_cons_of_eq {α β : Type} [DecidableEq α] {k : α} {e : α × β}
    {rest : List (α × β)} (he : e.1 = k) : mapDelete k (e :: rest) = mapDelete k rest := by
  simp [mapDelete, List.filter_cons, he]

theorem mapDelete_cons_of_ne {α β : Type} [DecidableEq α] {k : α} {e : α × β}
    {rest : List (α × β)} (he : ¬ e.1 = k) :
    mapDelete k (e :: rest) = e :: mapDelete k rest := by
  simp [mapDelete, List.filter_cons, he]

theorem mapGet_mapDelete_ne {α β : Type} [DecidableEq α] {k k' : α} (h : k' ≠ k) :
    ∀ {m : List (α × β)}, mapGet k' (mapDelete k m) = mapGet k' m := by
  intro m
  induction m with
  | nil => rfl
  | cons e rest ih =>
      by_cases he : e.1 = k
      · have he' : ¬ (e.1 = k') := by rw [he]; exact fun hk => h hk.symm
        rw [mapDelete_cons_of_eq he, ih]
        simp [mapGet, he']
      · rw [mapDelete_cons_of_ne he]
        by_cases he' : e.1 = k'
        · simp [mapGet, he']
        · simp [mapGet, he', ih]

/-! ### Frame lemmas: which store fields each operation leaves untouched -/

theorem createQuestionsSt_rooms : ∀ (L : List InsertQuestion) (s : St),
    (createQuestionsSt L s).2.quizRooms = s.quizRooms := by
  intro L
  induction L with
  | nil => intro s; rfl
  | cons q rest ih => intro s; simp [createQuestionsSt, ih]

theorem createQuestionsSt_players : ∀ (L : List InsertQuestion) (s : St),
    (createQuestionsSt L s).2.players = s.players := by
  intro L
  induction L with
  | nil => intro s; rfl
  | cons q rest ih => intro s; simp [createQuestionsSt, ih]

theorem createQuestionsSt_answers : ∀ (L : List InsertQuestion) (s : St),
    (createQuestionsSt L s).2.answers = s.answers := by
  intro L
  induction L with
  | nil => intro s; rfl
  | cons q rest ih => intro s; simp [createQuestionsSt, ih]

theorem createQuestionsSt_roomCounter : ∀ (L : List InsertQuestion) (s : St),
    (createQuestionsSt L s).2.currentRoomId = s.currentRoomId := by
  intro L
  induction L with
  | nil => intro s; rfl
  | cons q rest ih => intro s; simp [createQuestionsSt, ih]

theorem createQuestionsSt_playerCounter : ∀ (L : List InsertQuestion) (s : St),
    (createQuestionsSt L s).2.currentPlayerId = s.currentPlayerId := by
  intro L
  induction L with
  | nil => intro s; rfl
  | cons q rest ih => intro s; simp [createQuestionsSt, ih]

theorem joinQuizHandler_rooms (req : JoinQuizRequest) (s : St) :
    (joinQuizHandler req s).2.quizRooms = s.quizRooms := by
  unfold joinQuizHandler
  rcases getQuizRoomByCode req.roomCode s with _ | room
  · rfl
  · simp only
    by_cases hst : room.status ≠ RoomStatus.waiting
    · simp [hst]
    · simp only [hst, if_neg, if_false]
      rcases getPlayerById req.playerId s with _ | p
      · simp [joinFinish, createPlayerSt]
      · simp only
        by_cases hrm : p.roomId = room.id
        · simp [hrm]
        · simp [hrm, joinFinish, createPlayerSt, cleanupPlayerSt]
          rcases mapGet req.playerId s.players with _ | q <;> rfl

theorem updatePlayerScoreSt_rooms (playerId : String) (score : Int) (s : St) :
    (updatePlayerScoreSt playerId score s).2.quizRooms = s.quizRooms := by
  unfold updatePlayerScoreSt
  rcases mapGet playerId s.players with _ | p <;> rfl

theorem submitAnswerHandler_rooms (req : SubmitAnswerRequest) (s : St) :
    (submitAnswerHandler req s).2.quizRooms = s.quizRooms := by
  unfold submitAnswerHandler
  rcases getPlayerById req.playerId s with _ | player
  · rfl
  · simp only
    by_cases ha : hasPlayerAnswered req.playerId req.questionId s
    · simp [ha]
    · simp only [ha, if_neg, if_false, Bool.false_eq_true]
      rcases getQuestionById req.questionId s with _ | question
      · rfl
      · simp only
        by_cases hq : question.roomId ≠ player.roomId
        · simp [hq]
        · simp only [hq, if_neg, if_false]
          exact (updatePlayerScoreSt_rooms _ _ _).trans rfl

theorem cleanupPlayerSt_rooms (playerId : String) (s : St) :
    (cleanupPlayerSt playerId s).2.quizRooms = s.quizRooms := by
  unfold cleanupPlayerSt
  rcases mapGet playerId s.players with _ | p <;> rfl

theorem cleanupPlayerSt_questions (playerId : String) (s : St) :
    (cleanupPlayerSt playerId s).2.questions = s.questions := by
  unfold cleanupPlayerSt
  rcases mapGet playerId s.players with _ | p <;> rfl

theorem clearAnswersForPlayerSt_rooms (playerId : String) (s : St) :
    (clearAnswersForPlayerSt playerId s).quizRooms = s.quizRooms := rfl

theorem leaveHandler_rooms (playerId : String) (s : St) :
    (leaveHandler playerId s).2.quizRooms = s.quizRooms := by
  unfold leaveHandler
  rcases getPlayerById playerId s with _ | p
  · rfl
  · simp only
    by_cases h : (cleanupPlayerSt playerId s).1 <;>
      simp [h, cleanupPlayerSt_rooms]

theorem socketLeaveRoom_rooms (playerId : String) (s : St) :
    (socketLeaveRoom playerId s).quizRooms = s.quizRooms := by
  unfold socketLeaveRoom
  exact cleanupPlayerSt_rooms playerId s

/-! ### The code-allocation loop: exit characterization -/

theorem allocGo_facts (gen : Nat → String) (taken : String → Bool) :
    ∀ (fuel attempts : Nat), fuel + attempts = 10 →
      (((allocGo gen taken fuel attempts).1 < 10 →
          taken (allocGo gen taken fuel attempts).2 = false) ∧
       ((allocGo gen taken fuel attempts).1 ≥ 10 ↔
          ∀ k, attempts ≤ k → k ≤ 8 → taken (gen k) = true)) := by
  intro fuel
  induction fuel with
  | zero =>
      intro attempts h10
      have : attempts = 10 := by omega
      subst this
      constructor
      · intro h
        simp [allocGo] at h
      · constructor
        · intro _ k hk1 hk2
          omega
        · intro _
          simp [allocGo]
  | succ fuel ih =>
      intro attempts h10
      by_cases hc : (taken (gen attempts) && decide (attempts + 1 < 10)) = true
      · have hstep : allocGo gen taken (fuel + 1) attempts =
            allocGo gen taken fuel (attempts + 1) := by
          simp [allocGo, hc]
        have hih := ih (attempts + 1) (by omega)
        rw [hstep]
        rcases Bool.and_eq_true_iff.mp hc with ⟨ht, hlt⟩
        refine ⟨hih.1, ?_⟩
        rw [hih.2]
        constructor
        · intro hall k hk1 hk2
          by_cases hke : k = attempts
          · subst hke; exact ht
          · exact hall k (by omega) hk2
        · intro hall k hk1 hk2
          exact hall k (by omega) hk2
      · have hstep : allocGo gen taken (fuel + 1) attempts = (attempts + 1, gen attempts) := by
          simp only [allocGo]
          rw [if_neg hc]
        rw [hstep]
        simp only
        by_cases hlt : attempts + 1 < 10
        · have ht : taken (gen attempts) = false := by
            rcases Bool.eq_false_or_eq_true (taken (gen attempts)) with h | h
            · exfalso; apply hc; simp [h, hlt]
            · exact h
          constructor
          · intro _; exact ht
          · constructor
            · intro hge; omega
            · intro hall
              exfalso
              have := hall attempts (le_refl _) (by omega)
              rw [ht] at this
              exact Bool.false_ne_true this
        · constructor
          · intro h; omega
          · constructor
            · intro _ k hk1 hk2; omega
            · intro _; omega

theorem allocRoomCode_facts (gen : Nat → String) (taken : String → Bool) :
    ((allocRoomCode gen taken).1 < 10 → taken (allocRoomCode gen taken).2 = false) ∧
    ((allocRoomCode gen taken).1 ≥ 10 ↔ ∀ k, k ≤ 8 → taken (gen k) = true) := by
  have h := allocGo_facts gen taken 10 0 (by omega)
  unfold allocRoomCode
  refine ⟨h.1, ?_⟩
  rw [h.2]
  constructor
  · intro hall k hk; exact hall k (Nat.zero_le k) hk
  · intro hall k _ hk; exact hall k hk

/-! ### Store well-keyedness and reachability invariants -/

theorem mapGet_some_val_mem {α β : Type} [DecidableEq α] {k : α} {v : β}
    {m : List (α × β)} (h : mapGet k m = some v) : v ∈ mapValues m :=
  List.mem_map.mpr ⟨(k, v), mapGet_some_mem h, rfl⟩

theorem mem_mapSet {α β : Type} [DecidableEq α] {k : α} {v : β} {e : α × β} :
    ∀ {m : List (α × β)}, e ∈ mapSet k v m → e = (k, v) ∨ e ∈ m := by
  intro m
  induction m with
  | nil => intro h; simp [mapSet] at h; exact Or.inl h
  | cons f rest ih =>
      intro h
      by_cases hf : f.1 = k
      · simp only [mapSet, hf, if_pos] at h
        rcases List.mem_cons.mp h with h' | h'
        · exact Or.inl h'
        · exact Or.inr (List.mem_cons_of_mem _ h')
      · simp only [mapSet, hf, if_neg, if_false] at h
        rcases List.mem_cons.mp h with h' | h'
        · exact Or.inr (by rw [h']; exact List.mem_cons_self _ _)
        · rcases ih h' with h'' | h''
          · exact Or.inl h''
          · exact Or.inr (List.mem_cons_of_mem _ h'')

/-- Every room id in the store is below the room-id counter. -/
def RoomIdsBelow (s : St) : Prop :=
  ∀ r ∈ mapValues s.quizRooms, r.id < s.currentRoomId

/-- Every player's room reference is below the room-id counter. -/
def PlayerRoomsBelow (s : St) : Prop :=
  ∀ p ∈ mapValues s.players, p.roomId < s.currentRoomId

/-- The players map has no duplicate keys (automatic for a JS `Map`). -/
def PlayersNodup (s : St) : Prop :=
  (s.players.map Prod.fst).Nodup

/-- The reachability invariant used by the status and score theorems. -/
def StInv (s : St) : Prop :=
  RoomIdsBelow s ∧ PlayerRoomsBelow s ∧ PlayersNodup s

theorem stInv_empty : StInv St.empty := by
  refine ⟨?_, ?_, ?_⟩ <;> simp [RoomIdsBelow, PlayerRoomsBelow, PlayersNodup, St.empty, mapValues]

theorem stinv_of_frames {s s' : St} (hr : s'.quizRooms = s.quizRooms)
    (hp : s'.players = s.players) (hc : s'.currentRoomId = s.currentRoomId)
    (h : StInv s) : StInv s' := by
  refine ⟨?_, ?_, ?_⟩
  · intro r hrm
    rw [hc]
    exact h.1 r (by rwa [hr] at hrm)
  · intro p hpm
    rw [hc]
    exact h.2.1 p (by rwa [hp] at hpm)
  · rw [PlayersNodup, hp]
    exact h.2.2

theorem stinv_createQuizRoom (room : InsertQuizRoom) (s : St) (h : StInv s) :
    StInv (createQuizRoomSt room s).2 := by
  refine ⟨?_, ?_, ?_⟩
  · intro r hrm
    simp only [createQuizRoomSt] at hrm ⊢
    rcases mem_values_mapSet hrm with h' | h'
    · rw [h']
      show s.currentRoomId < s.currentRoomId + 1
      omega
    · have := h.1 r h'
      omega
  · intro p hpm
    simp only [createQuizRoomSt] at hpm ⊢
    have := h.2.1 p hpm
    omega
  · exact h.2.2

theorem stinv_createPlayer (p : InsertPlayer) (s : St)
    (hid : p.roomId < s.currentRoomId) (h : StInv s) :
    StInv (createPlayerSt p s).2 := by
  refine ⟨?_, ?_, ?_⟩
  · intro r hrm
    exact h.1 r hrm
  · intro q hqm
    simp only [createPlayerSt] at hqm ⊢
    rcases mem_values_mapSet hqm with h' | h'
    · rw [h']; exact hid
    · exact h.2.1 q h'
  · simp only [PlayersNodup, createPlayerSt]
    exact keys_mapSet_nodup h.2.2

theorem stinv_updatePlayerScore (pid : String) (sc : Int) (s : St) (h : StInv s) :
    StInv (updatePlayerScoreSt pid sc s).2 := by
  unfold updatePlayerScoreSt
  rcases hg : mapGet pid s.players with _ | player
  · exact h
  · refine ⟨?_, ?_, ?_⟩
    · intro r hrm
      exact h.1 r hrm
    · intro q hqm
      simp only at hqm ⊢
      rcases mem_values_mapSet hqm with h' | h'
      · rw [h']
        exact h.2.1 player (mapGet_some_val_mem hg)
      · exact h.2.1 q h'
    · simp only [PlayersNodup]
      exact keys_mapSet_nodup h.2.2

theorem stinv_createAnswer (a : InsertAnswer) (s : St) (h : StInv s) :
    StInv (createAnswerSt a s).2 :=
  stinv_of_frames rfl rfl rfl h

theorem stinv_createQuestions (L : List InsertQuestion) (s : St) (h : StInv s) :
    StInv (createQuestionsSt L s).2 :=
  stinv_of_frames (createQuestionsSt_rooms L s) (createQuestionsSt_players L s)
    (createQuestionsSt_roomCounter L s) h

theorem cleanupPlayerSt_players_cases (pid : String) (s : St) :
    (cleanupPlayerSt pid s).2.players = s.players ∨
    (cleanupPlayerSt pid s).2.players = mapDelete pid s.players := by
  unfold cleanupPlayerSt
  rcases mapGet pid s.players with _ | p
  · exact Or.inl rfl
  · exact Or.inr rfl

theorem cleanupPlayerSt_roomCounter (pid : String) (s : St) :
    (cleanupPlayerSt pid s).2.currentRoomId = s.currentRoomId := by
  unfold cleanupPlayerSt
  rcases mapGet pid s.players with _ | p <;> rfl

theorem stinv_cleanupPlayer (pid : String) (s : St) (h : StInv s) :
    StInv (cleanupPlayerSt pid s).2 := by
  rcases cleanupPlayerSt_players_cases pid s with hp | hp
  · exact stinv_of_frames (cleanupPlayerSt_rooms pid s) hp (cleanupPlayerSt_roomCounter pid s) h
  · refine ⟨?_, ?_, ?_⟩
    · intro r hrm
      rw [cleanupPlayerSt_roomCounter]
      exact h.1 r (by rwa [cleanupPlayerSt_rooms pid s] at hrm)
    · intro p hpm
      rw [cleanupPlayerSt_roomCounter]
      rw [hp] at hpm
      rcases List.mem_map.mp hpm with ⟨e, hem, hev⟩
      have := (mem_mapDelete.mp hem).1
      exact h.2.1 p (by rw [← hev]; exact List.mem_map.mpr ⟨e, this, rfl⟩)
    · rw [PlayersNodup, hp]
      exact ((mapDelete_sublist pid s.players).map Prod.fst).nodup h.2.2

theorem cleanupRoomSt_players_sublist (code : String) (s : St) :
    (cleanupRoomSt code s).2.players.Sublist s.players := by
  unfold cleanupRoomSt
  rcases mapGet code s.quizRooms with _ | room
  · exact List.Sublist.refl _
  · exact foldl_mapDelete_sublist _ _ _

theorem cleanupRoomSt_rooms_sublist (code : String) (s : St) :
    (cleanupRoomSt code s).2.quizRooms.Sublist s.quizRooms := by
  unfold cleanupRoomSt
  rcases mapGet code s.quizRooms with _ | room
  · exact List.Sublist.refl _
  · exact mapDelete_sublist _ _

theorem cleanupRoomSt_roomCounter (code : String) (s : St) :
    (cleanupRoomSt code s).2.currentRoomId = s.currentRoomId := by
  unfold cleanupRoomSt
  rcases mapGet code s.quizRooms with _ | room <;> rfl

theorem stinv_cleanupRoom (code : String) (s : St) (h : StInv s) :
    StInv (cleanupRoomSt code s).2 := by
  refine ⟨?_, ?_, ?_⟩
  · intro r hrm
    rw [cleanupRoomSt_roomCounter]
    rcases List.mem_map.mp hrm with ⟨e, hem, hev⟩
    exact h.1 r (by
      rw [← hev]
      exact List.mem_map.mpr ⟨e, (cleanupRoomSt_rooms_sublist code s).subset hem, rfl⟩)
  · intro p hpm
    rw [cleanupRoomSt_roomCounter]
    rcases List.mem_map.mp hpm with ⟨e, hem, hev⟩
    exact h.2.1 p (by
      rw [← hev]
      exact List.mem_map.mpr ⟨e, (cleanupRoomSt_players_sublist code s).subset hem, rfl⟩)
  · exact ((cleanupRoomSt_players_sublist code s).map Prod.fst).nodup h.2.2

theorem updateQuizRoomSt_players (code : String) (f : QuizRoom → QuizRoom) (s : St) :
    (updateQuizRoomSt code f s).2.players = s.players := by
  unfold updateQuizRoomSt
  rcases mapGet code s.quizRooms with _ | room <;> rfl

theorem updateQuizRoomSt_roomCounter (code : String) (f : QuizRoom → QuizRoom) (s : St) :
    (updateQuizRoomSt code f s).2.currentRoomId = s.currentRoomId := by
  unfold updateQuizRoomSt
  rcases mapGet code s.quizRooms with _ | room <;> rfl

theorem stinv_updateQuizRoom (code : String) (f : QuizRoom → QuizRoom) (s : St)
    (hf : ∀ r, (f r).id = r.id) (h : StInv s) :
    StInv (updateQuizRoomSt code f s).2 := by
  unfold updateQuizRoomSt
  rcases hg : mapGet code s.quizRooms with _ | room
  · exact h
  · refine ⟨?_, ?_, ?_⟩
    · intro r hrm
      simp only at hrm ⊢
      rcases mem_values_mapSet hrm with h' | h'
      · rw [h', hf]
        exact h.1 room (mapGet_some_val_mem hg)
      · exact h.1 r h'
    · intro p hpm
      exact h.2.1 p hpm
    · exact h.2.2

/-! ### Shape lemmas for the create handler -/

theorem createPlayerSt_players_shape (p : InsertPlayer) (t : St) :
    ∃ newP : Player, (createPlayerSt p t).2.players = mapSet p.playerId newP t.players ∧
      newP.roomId = p.roomId ∧ newP.score = p.score ∧ newP.isHost = p.isHost ∧
      newP.playerId = p.playerId ∧ newP.name = p.name :=
  ⟨_, rfl, rfl, rfl, rfl, rfl, rfl⟩

theorem allocGo_snd (gen : Nat → String) (taken : String → Bool) :
    ∀ (fuel attempts : Nat), fuel + attempts = 10 → 1 ≤ fuel →
      ∃ k, (allocGo gen taken fuel attempts).2 = gen k := by
  intro fuel
  induction fuel with
  | zero => intro attempts _ h1; omega
  | succ fuel ih =>
      intro attempts h10 _
      by_cases hc : (taken (gen attempts) && decide (attempts + 1 < 10)) = true
      · have hstep : allocGo gen taken (fuel + 1) attempts =
            allocGo gen taken fuel (attempts + 1) := by
          simp [allocGo, hc]
        rcases Bool.and_eq_true_iff.mp hc with ⟨_, hlt⟩
        rw [hstep]
        exact ih (attempts + 1) (by omega) (by simp at hlt; omega)
      · have hstep : allocGo gen taken (fuel + 1) attempts = (attempts + 1, gen attempts) := by
          simp only [allocGo]
          rw [if_neg hc]
        rw [hstep]
        exact ⟨attempts, rfl⟩

theorem createQuizHandler_result_cases (req : CreateQuizRequest)
    (picks : Nat → Fin 6 → Fin 36) (upstream : Option (List RawQuestion)) (s : St) :
    (createQuizHandler req picks upstream s).1 = CreateResult.codeExhausted ∨
    ∃ code room, (createQuizHandler req picks upstream s).1 = CreateResult.ok code room := by
  simp only [createQuizHandler]
  by_cases hex : (allocRoomCode (fun k => generateRoomCode (picks k))
      (fun code => (getQuizRoomByCode code s).isSome)).1 ≥ 10
  · left; rw [if_pos hex]
  · right; rw [if_neg hex]; exact ⟨_, _, rfl⟩

theorem createQuizHandler_exhausted_iff (req : CreateQuizRequest)
    (picks : Nat → Fin 6 → Fin 36) (upstream : Option (List RawQuestion)) (s : St) :
    (createQuizHandler req picks upstream s).1 = CreateResult.codeExhausted ↔
      ∀ k, k ≤ 8 → (getQuizRoomByCode (generateRoomCode (picks k)) s).isSome = true := by
  simp only [createQuizHandler]
  by_cases hex : (allocRoomCode (fun k => generateRoomCode (picks k))
      (fun code => (getQuizRoomByCode code s).isSome)).1 ≥ 10
  · rw [if_pos hex]
    simp only [true_iff]
    exact (allocRoomCode_facts _ _).2.mp hex
  · rw [if_neg hex]
    constructor
    · intro h; exact absurd h (by simp)
    · intro hall
      exact absurd ((allocRoomCode_facts _ _).2.mpr hall) hex

theorem createQuizHandler_exhausted_state (req : CreateQuizRequest)
    (picks : Nat → Fin 6 → Fin 36) (upstream : Option (List RawQuestion)) (s : St)
    (h : (createQuizHandler req picks upstream s).1 = CreateResult.codeExhausted) :
    (createQuizHandler req picks upstream s).2 = s := by
  simp only [createQuizHandler] at h ⊢
  by_cases hex : (allocRoomCode (fun k => generateRoomCode (picks k))
      (fun code => (getQuizRoomByCode code s).isSome)).1 ≥ 10
  · rw [if_pos hex]
  · rw [if_neg hex] at h
    exact absurd h (by simp)

theorem createQuizHandler_ok_room (req : CreateQuizRequest)
    (picks : Nat → Fin 6 → Fin 36) (upstream : Option (List RawQuestion)) (s : St)
    (code : String) (room : QuizRoom)
    (h : (createQuizHandler req picks upstream s).1 = CreateResult.ok code room) :
    getQuizRoomByCode code s = none ∧ room.id = s.currentRoomId ∧
      room.status = RoomStatus.waiting ∧ room.roomCode = code ∧
      (∃ k, code = generateRoomCode (picks k)) := by
  simp only [createQuizHandler] at h
  by_cases hex : (allocRoomCode (fun k => generateRoomCode (picks k))
      (fun code => (getQuizRoomByCode code s).isSome)).1 ≥ 10
  · rw [if_pos hex] at h
    exact absurd h (by simp)
  · rw [if_neg hex] at h
    simp only [CreateResult.ok.injEq] at h
    obtain ⟨hcode, hroom⟩ := h
    have hfresh : (getQuizRoomByCode
        ((allocRoomCode (fun k => generateRoomCode (picks k))
          (fun code => (getQuizRoomByCode code s).isSome)).2) s).isSome = false :=
      (allocRoomCode_facts (fun k => generateRoomCode (picks k))
        (fun code => (getQuizRoomByCode code s).isSome)).1 (by omega)
    subst hcode
    refine ⟨?_, ?_, ?_, ?_, ?_⟩
    · rcases hg : getQuizRoomByCode ((allocRoomCode (fun k => generateRoomCode (picks k))
        (fun code => (getQuizRoomByCode code s).isSome)).2) s with _ | r
      · rfl
      · rw [hg] at hfresh; simp at hfresh
    · rw [← hroom]; rfl
    · rw [← hroom]; rfl
    · rw [← hroom]; rfl
    · obtain ⟨k, hk⟩ := allocGo_snd (fun k => generateRoomCode (picks k))
        (fun code => (getQuizRoomByCode code s).isSome) 10 0 (by omega) (by omega)
      exact ⟨k, hk⟩

theorem createQuizHandler_ok_state (req : CreateQuizRequest)
    (picks : Nat → Fin 6 → Fin 36) (upstream : Option (List RawQuestion)) (s : St)
    (code : String) (room : QuizRoom)
    (h : (createQuizHandler req picks upstream s).1 = CreateResult.ok code room) :
    (createQuizHandler req picks upstream s).2.quizRooms = mapSet code room s.quizRooms ∧
    (createQuizHandler req picks upstream s).2.currentRoomId = s.currentRoomId + 1 ∧
    (createQuizHandler req picks upstream s).2.answers = s.answers ∧
    (∀ pid, pid ≠ req.hostId →
      getPlayerById pid (createQuizHandler req picks upstream s).2 = getPlayerById pid s) ∧
    (∃ newP : Player,
      getPlayerById req.hostId (createQuizHandler req picks upstream s).2 = some newP ∧
      newP.roomId = s.currentRoomId ∧ newP.playerId = req.hostId ∧
      newP.score = 0 ∧ newP.isHost = true) := by
  simp only [createQuizHandler] at h ⊢
  by_cases hex : (allocRoomCode (fun k => generateRoomCode (picks k))
      (fun code => (getQuizRoomByCode code s).isSome)).1 ≥ 10
  · rw [if_pos hex] at h
    exact absurd h (by simp)
  · rw [if_neg hex] at h ⊢
    simp only [CreateResult.ok.injEq] at h
    obtain ⟨hcode, hroom⟩ := h
    subst hcode
    subst hroom
    refine ⟨?_, ?_, ?_, ?_, ?_⟩
    · show (createQuestionsSt _ _).2.quizRooms = _
      rw [createQuestionsSt_rooms]
      rfl
    · show (createQuestionsSt _ _).2.currentRoomId = _
      rw [createQuestionsSt_roomCounter]
      rfl
    · show (createQuestionsSt _ _).2.answers = _
      rw [createQuestionsSt_answers]
      rfl
    · intro pid hne
      show mapGet pid (mapSet req.hostId _ (createQuestionsSt _ _).2.players) = _
      rw [mapGet_mapSet_ne hne, createQuestionsSt_players]
      rfl
    · exact ⟨_, mapGet_mapSet_self, rfl, rfl, rfl, rfl⟩

theorem stinv_createQuizHandler (req : CreateQuizRequest)
    (picks : Nat → Fin 6 → Fin 36) (upstream : Option (List RawQuestion)) (s : St)
    (h : StInv s) : StInv (createQuizHandler req picks upstream s).2 := by
  simp only [createQuizHandler]
  by_cases hex : (allocRoomCode (fun k => generateRoomCode (picks k))
      (fun code => (getQuizRoomByCode code s).isSome)).1 ≥ 10
  · rw [if_pos hex]
    exact h
  · rw [if_neg hex]
    simp only
    apply stinv_createPlayer
    · rw [createQuestionsSt_roomCounter]
      show s.currentRoomId < s.currentRoomId + 1
      omega
    · exact stinv_createQuestions _ _ (stinv_createQuizRoom _ _ h)

/-! ### Invariant preservation by every operation -/

theorem stinv_joinQuiz (req : JoinQuizRequest) (s : St) (h : StInv s) :
    StInv (joinQuizHandler req s).2 := by
  unfold joinQuizHandler
  rcases hg : getQuizRoomByCode req.roomCode s with _ | room
  · exact h
  · simp only
    by_cases hst : room.status ≠ RoomStatus.waiting
    · rw [if_pos hst]; exact h
    · rw [if_neg hst]
      have hroomlt : room.id < s.currentRoomId := h.1 room (mapGet_some_val_mem hg)
      rcases getPlayerById req.playerId s with _ | p
      · exact stinv_createPlayer _ _ hroomlt h
      · simp only
        by_cases hrm : p.roomId = room.id
        · rw [if_pos hrm]; exact h
        · rw [if_neg hrm]
          apply stinv_createPlayer
          · show room.id < (cleanupPlayerSt req.playerId s).2.currentRoomId
            rw [cleanupPlayerSt_roomCounter]
            exact hroomlt
          · exact stinv_cleanupPlayer _ _ h

theorem stinv_submitAnswer (req : SubmitAnswerRequest) (s : St) (h : StInv s) :
    StInv (submitAnswerHandler req s).2 := by
  unfold submitAnswerHandler
  rcases getPlayerById req.playerId s with _ | player
  · exact h
  · simp only
    by_cases ha : hasPlayerAnswered req.playerId req.questionId s = true
    · rw [if_pos ha]; exact h
    · rw [if_neg ha]
      rcases getQuestionById req.questionId s with _ | question
      · exact h
      · simp only
        by_cases hq : question.roomId ≠ player.roomId
        · rw [if_pos hq]; exact h
        · rw [if_neg hq]
          exact stinv_updatePlayerScore _ _ _ (stinv_createAnswer _ _ h)

theorem stinv_cleanupRest (code : String) (pid : String) (s : St) (h : StInv s) :
    StInv (cleanupRoomRestHandler code pid s).2 := by
  unfold cleanupRoomRestHandler
  rcases getQuizRoomByCode code s with _ | room
  · exact h
  · simp only
    by_cases hh : room.hostId ≠ pid
    · rw [if_pos hh]; exact h
    · rw [if_neg hh]
      by_cases hb : (cleanupRoomSt code s).1 = true
      · rw [if_pos hb]; exact stinv_cleanupRoom _ _ h
      · rw [if_neg hb]; exact stinv_cleanupRoom _ _ h

theorem stinv_leave (pid : String) (s : St) (h : StInv s) :
    StInv (leaveHandler pid s).2 := by
  unfold leaveHandler
  rcases getPlayerById pid s with _ | p
  · exact h
  · simp only
    by_cases hb : (cleanupPlayerSt pid s).1 = true
    · rw [if_pos hb]; exact stinv_cleanupPlayer _ _ h
    · rw [if_neg hb]; exact stinv_cleanupPlayer _ _ h

theorem stinv_socketCleanup (code pid : String) (host : Bool) (s : St) (h : StInv s) :
    StInv (socketCleanupRoom code pid host s) := by
  cases host
  · exact h
  · exact stinv_cleanupRoom _ _ h

theorem stinv_socketStart (code : String) (host : Bool) (s : St) (h : StInv s) :
    StInv (socketStartQuiz code host s) := by
  cases host
  · exact h
  · unfold socketStartQuiz
    simp only [if_true]
    rcases getQuizRoomByCode code s with _ | room
    · exact h
    · exact stinv_updateQuizRoom _ _ _ (fun r => rfl) h

theorem stinv_socketNext (code : String) (host : Bool) (s : St) (h : StInv s) :
    StInv (socketNextQuestion code host s) := by
  cases host
  · exact h
  · unfold socketNextQuestion
    simp only [if_true]
    rcases hg : getQuizRoomByCode code s with _ | room
    · exact h
    · simp only
      by_cases hlt : room.currentQuestionIndex + 1 < (getQuestionsByRoomId room.id s).length
      · rw [if_pos hlt]
        exact stinv_updateQuizRoom _ _ _ (fun r => rfl) h
      · rw [if_neg hlt]
        exact stinv_updateQuizRoom _ _ _ (fun r => rfl) h

theorem stinv_socketFinish (code : String) (host : Bool) (s : St) (h : StInv s) :
    StInv (socketQuizFinished code host s) := by
  cases host
  · exact h
  · unfold socketQuizFinished
    simp only [if_true]
    rcases getQuizRoomByCode code s with _ | room
    · exact h
    · exact stinv_updateQuizRoom _ _ _ (fun r => rfl) h

/-- Every controller and socket operation preserves the reachability
invariant. -/
theorem step_StInv (op : Op) (s : St) (h : StInv s) : StInv (step op s) := by
  cases op with
  | createQuiz req picks upstream => exact stinv_createQuizHandler req picks upstream s h
  | joinQuiz req => exact stinv_joinQuiz req s h
  | submitAnswer req => exact stinv_submitAnswer req s h
  | clearAnswers pid => exact stinv_of_frames rfl rfl rfl h
  | cleanupRest code pid => exact stinv_cleanupRest code pid s h
  | leaveRest pid => exact stinv_leave pid s h
  | socketLeave pid => exact stinv_cleanupPlayer pid s h
  | socketCleanup code pid host => exact stinv_socketCleanup code pid host s h
  | socketStart code host => exact stinv_socketStart code host s h
  | socketNext code host => exact stinv_socketNext code host s h
  | socketFinish code host => exact stinv_socketFinish code host s h

/-! ### The room-id counter never decreases -/

theorem updatePlayerScoreSt_roomCounter (pid : String) (sc : Int) (s : St) :
    (updatePlayerScoreSt pid sc s).2.currentRoomId = s.currentRoomId := by
  unfold updatePlayerScoreSt
  rcases mapGet pid s.players with _ | p <;> rfl

theorem joinQuizHandler_roomCounter (req : JoinQuizRequest) (s : St) :
    (joinQuizHandler req s).2.currentRoomId = s.currentRoomId := by
  unfold joinQuizHandler
  rcases getQuizRoomByCode req.roomCode s with _ | room
  · rfl
  · simp only
    by_cases hst : room.status ≠ RoomStatus.waiting
    · rw [if_pos hst]
    · rw [if_neg hst]
      rcases getPlayerById req.playerId s with _ | p
      · rfl
      · simp only
        by_cases hrm : p.roomId = room.id
        · rw [if_pos hrm]
        · rw [if_neg hrm]
          show (createPlayerSt _ _).2.currentRoomId = _
          rw [show ∀ (q : InsertPlayer) (t : St),
            (createPlayerSt q t).2.currentRoomId = t.currentRoomId from fun _ _ => rfl]
          exact cleanupPlayerSt_roomCounter _ _

theorem submitAnswerHandler_roomCounter (req : SubmitAnswerRequest) (s : St) :
    (submitAnswerHandler req s).2.currentRoomId = s.currentRoomId := by
  unfold submitAnswerHandler
  rcases getPlayerById req.playerId s with _ | player
  · rfl
  · simp only
    by_cases ha : hasPlayerAnswered req.playerId req.questionId s = true
    · rw [if_pos ha]
    · rw [if_neg ha]
      rcases getQuestionById req.questionId s with _ | question
      · rfl
      · simp only
        by_cases hq : question.roomId ≠ player.roomId
        · rw [if_pos hq]
        · rw [if_neg hq]
          exact (updatePlayerScoreSt_roomCounter _ _ _).trans rfl

theorem cleanupRoomRestHandler_roomCounter (code pid : String) (s : St) :
    (cleanupRoomRestHandler code pid s).2.currentRoomId = s.currentRoomId := by
  unfold cleanupRoomRestHandler
  rcases getQuizRoomByCode code s with _ | room
  · rfl
  · simp only
    by_cases hh : room.hostId ≠ pid
    · rw [if_pos hh]
    · rw [if_neg hh]
      by_cases hb : (cleanupRoomSt code s).1 = true
      · rw [if_pos hb]; exact cleanupRoomSt_roomCounter _ _
      · rw [if_neg hb]; exact cleanupRoomSt_roomCounter _ _

theorem leaveHandler_roomCounter (pid : String) (s : St) :
    (leaveHandler pid s).2.currentRoomId = s.currentRoomId := by
  unfold leaveHandler
  rcases getPlayerById pid s with _ | p
  · rfl
  · simp only
    by_cases hb : (cleanupPlayerSt pid s).1 = true
    · rw [if_pos hb]; exact cleanupPlayerSt_roomCounter _ _
    · rw [if_neg hb]; exact cleanupPlayerSt_roomCounter _ _

theorem step_roomCounter_mono (op : Op) (s : St) :
    s.currentRoomId ≤ (step op s).currentRoomId := by
  cases op with
  | createQuiz req picks upstream =>
      show s.currentRoomId ≤ (createQuizHandler req picks upstream s).2.currentRoomId
      rcases createQuizHandler_result_cases req picks upstream s with h | ⟨code, room, h⟩
      · rw [createQuizHandler_exhausted_state req picks upstream s h]
      · rw [(createQuizHandler_ok_state req picks upstream s code room h).2.1]
        omega
  | joinQuiz req => rw [show (step (Op.joinQuiz req) s) = (joinQuizHandler req s).2 from rfl,
      joinQuizHandler_roomCounter]
  | submitAnswer req => rw [show (step (Op.submitAnswer req) s) = (submitAnswerHandler req s).2
      from rfl, submitAnswerHandler_roomCounter]
  | clearAnswers pid => exact le_refl _
  | cleanupRest code pid => rw [show (step (Op.cleanupRest code pid) s) =
      (cleanupRoomRestHandler code pid s).2 from rfl, cleanupRoomRestHandler_roomCounter]
  | leaveRest pid => rw [show (step (Op.leaveRest pid) s) = (leaveHandler pid s).2 from rfl,
      leaveHandler_roomCounter]
  | socketLeave pid => rw [show (step (Op.socketLeave pid) s) = (cleanupPlayerSt pid s).2
      from rfl, cleanupPlayerSt_roomCounter]
  | socketCleanup code pid host =>
      cases host
      · exact le_refl _
      · rw [show (step (Op.socketCleanup code pid true) s) = (cleanupRoomSt code s).2 from rfl,
          cleanupRoomSt_roomCounter]
  | socketStart code host =>
      cases host
      · exact le_refl _
      · show s.currentRoomId ≤ (socketStartQuiz code true s).currentRoomId
        unfold socketStartQuiz
        simp only [if_true]
        rcases getQuizRoomByCode code s with _ | room
        · exact le_refl _
        · rw [updateQuizRoomSt_roomCounter]
  | socketNext code host =>
      cases host
      · exact le_refl _
      · show s.currentRoomId ≤ (socketNextQuestion code true s).currentRoomId
        unfold socketNextQuestion
        simp only [if_true]
        rcases getQuizRoomByCode code s with _ | room
        · exact le_refl _
        · simp only
          by_cases hlt : room.currentQuestionIndex + 1 < (getQuestionsByRoomId room.id s).length
          · rw [if_pos hlt, updateQuizRoomSt_roomCounter]
          · rw [if_neg hlt, updateQuizRoomSt_roomCounter]
  | socketFinish code host =>
      cases host
      · exact le_refl _
      · show s.currentRoomId ≤ (socketQuizFinished code true s).currentRoomId
        unfold socketQuizFinished
        simp only [if_true]
        rcases getQuizRoomByCode code s with _ | room
        · exact le_refl _
        · rw [updateQuizRoomSt_roomCounter]

/-! ### How each operation can change the room stored under a given code -/

theorem getRoom_eq_of_rooms_eq {s s' : St} (h : s'.quizRooms = s.quizRooms) (code : String) :
    getQuizRoomByCode code s' = getQuizRoomByCode code s := by
  unfold getQuizRoomByCode
  rw [h]

theorem cleanupRoomSt_rooms_cases (code : String) (s : St) :
    (cleanupRoomSt code s).2.quizRooms = s.quizRooms ∨
    (cleanupRoomSt code s).2.quizRooms = mapDelete code s.quizRooms := by
  unfold cleanupRoomSt
  rcases mapGet code s.quizRooms with _ | room
  · exact Or.inl rfl
  · exact Or.inr rfl

theorem cleanupRoomRestHandler_rooms_cases (code pid : String) (s : St) :
    (cleanupRoomRestHandler code pid s).2.quizRooms = s.quizRooms ∨
    (cleanupRoomRestHandler code pid s).2.quizRooms = mapDelete code s.quizRooms := by
  unfold cleanupRoomRestHandler
  rcases getQuizRoomByCode code s with _ | room
  · exact Or.inl rfl
  · simp only
    by_cases hh : room.hostId ≠ pid
    · rw [if_pos hh]; exact Or.inl rfl
    · rw [if_neg hh]
      by_cases hb : (cleanupRoomSt code s).1 = true
      · rw [if_pos hb]; exact cleanupRoomSt_rooms_cases code s
      · rw [if_neg hb]; exact cleanupRoomSt_rooms_cases code s

theorem socketCleanupRoom_rooms_cases (code pid : String) (host : Bool) (s : St) :
    (socketCleanupRoom code pid host s).quizRooms = s.quizRooms ∨
    (socketCleanupRoom code pid host s).quizRooms = mapDelete code s.quizRooms := by
  cases host
  · exact Or.inl rfl
  · exact cleanupRoomSt_rooms_cases code s

theorem socketStartQuiz_rooms_cases (code : String) (host : Bool) (s : St) :
    (socketStartQuiz code host s).quizRooms = s.quizRooms ∨
    ∃ room, getQuizRoomByCode code s = some room ∧
      (socketStartQuiz code host s).quizRooms =
        mapSet code { room with status := RoomStatus.active } s.quizRooms := by
  cases host
  · exact Or.inl rfl
  · unfold socketStartQuiz
    simp only [if_true]
    rcases hg : getQuizRoomByCode code s with _ | room
    · exact Or.inl rfl
    · right
      refine ⟨room, rfl, ?_⟩
      unfold updateQuizRoomSt
      have : mapGet code s.quizRooms = some room := hg
      rw [this]

theorem socketNextQuestion_rooms_cases (code : String) (host : Bool) (s : St) :
    (socketNextQuestion code host s).quizRooms = s.quizRooms ∨
    (∃ room n, getQuizRoomByCode code s = some room ∧
      (socketNextQuestion code host s).quizRooms =
        mapSet code { room with currentQuestionIndex := n } s.quizRooms) ∨
    (∃ room, getQuizRoomByCode code s = some room ∧
      (socketNextQuestion code host s).quizRooms =
        mapSet code { room with status := RoomStatus.finished } s.quizRooms) := by
  cases host
  · exact Or.inl rfl
  · unfold socketNextQuestion
    simp only [if_true]
    rcases hg : getQuizRoomByCode code s with _ | room
    · exact Or.inl rfl
    · simp only
      have hget : mapGet code s.quizRooms = some room := hg
      by_cases hlt : room.currentQuestionIndex + 1 < (getQuestionsByRoomId room.id s).length
      · right; left
        refine ⟨room, room.currentQuestionIndex + 1, rfl, ?_⟩
        rw [if_pos hlt]
        unfold updateQuizRoomSt
        rw [hget]
      · right; right
        refine ⟨room, rfl, ?_⟩
        rw [if_neg hlt]
        unfold updateQuizRoomSt
        rw [hget]

theorem socketQuizFinished_rooms_cases (code : String) (host : Bool) (s : St) :
    (socketQuizFinished code host s).quizRooms = s.quizRooms ∨
    ∃ room, getQuizRoomByCode code s = some room ∧
      (socketQuizFinished code host s).quizRooms =
        mapSet code { room with status := RoomStatus.finished } s.quizRooms := by
  cases host
  · exact Or.inl rfl
  · unfold socketQuizFinished
    simp only [if_true]
    rcases hg : getQuizRoomByCode code s with _ | room
    · exact Or.inl rfl
    · right
      refine ⟨room, rfl, ?_⟩
      unfold updateQuizRoomSt
      have : mapGet code s.quizRooms = some room := hg
      rw [this]

/-- After one operation, the room stored under `code` is either an updated
form of the room previously stored there (same id, and a status that is
unchanged or moved to active/finished — never to waiting), or a freshly
created room (in waiting status, with the id taken from the counter, under
a previously free code). -/
theorem step_room_cases (op : Op) (s : St) (code : String) (r' : QuizRoom)
    (h : getQuizRoomByCode code (step op s) = some r') :
    (∃ r0, getQuizRoomByCode code s = some r0 ∧ r'.id = r0.id ∧
      (r'.status = r0.status ∨ r'.status ≠ RoomStatus.waiting)) ∨
    (getQuizRoomByCode code s = none ∧ r'.status = RoomStatus.waiting ∧
      r'.id = s.currentRoomId) := by
  cases op with
  | createQuiz req picks upstream =>
      rcases createQuizHandler_result_cases req picks upstream s with hres | ⟨code0, room0, hres⟩
      · rw [show step (Op.createQuiz req picks upstream) s =
            (createQuizHandler req picks upstream s).2 from rfl,
          createQuizHandler_exhausted_state req picks upstream s hres] at h
        exact Or.inl ⟨r', h, rfl, Or.inl rfl⟩
      · obtain ⟨hfresh, hid, hstatus, hrc, _⟩ :=
          createQuizHandler_ok_room req picks upstream s code0 room0 hres
        obtain ⟨hrooms, _, _, _⟩ :=
          createQuizHandler_ok_state req picks upstream s code0 room0 hres
        rw [show step (Op.createQuiz req picks upstream) s =
            (createQuizHandler req picks upstream s).2 from rfl] at h
        unfold getQuizRoomByCode at h
        rw [hrooms] at h
        by_cases hc : code = code0
        · subst hc
          rw [mapGet_mapSet_self] at h
          injection h with h
          subst h
          exact Or.inr ⟨hfresh, hstatus, hid⟩
        · rw [mapGet_mapSet_ne hc] at h
          exact Or.inl ⟨r', h, rfl, Or.inl rfl⟩
  | joinQuiz req =>
      rw [show step (Op.joinQuiz req) s = (joinQuizHandler req s).2 from rfl,
        getRoom_eq_of_rooms_eq (joinQuizHandler_rooms req s) code] at h
      exact Or.inl ⟨r', h, rfl, Or.inl rfl⟩
  | submitAnswer req =>
      rw [show step (Op.submitAnswer req) s = (submitAnswerHandler req s).2 from rfl,
        getRoom_eq_of_rooms_eq (submitAnswerHandler_rooms req s) code] at h
      exact Or.inl ⟨r', h, rfl, Or.inl rfl⟩
  | clearAnswers pid =>
      rw [show step (Op.clearAnswers pid) s = clearAnswersForPlayerSt pid s from rfl,
        getRoom_eq_of_rooms_eq (clearAnswersForPlayerSt_rooms pid s) code] at h
      exact Or.inl ⟨r', h, rfl, Or.inl rfl⟩
  | cleanupRest code0 pid =>
      rw [show step (Op.cleanupRest code0 pid) s = (cleanupRoomRestHandler code0 pid s).2
        from rfl] at h
      rcases cleanupRoomRestHandler_rooms_cases code0 pid s with hr | hr
      · rw [getRoom_eq_of_rooms_eq hr code] at h
        exact Or.inl ⟨r', h, rfl, Or.inl rfl⟩
      · unfold getQuizRoomByCode at h
        rw [hr] at h
        by_cases hc : code = code0
        · subst hc
          rw [mapGet_mapDelete_self] at h
          exact absurd h (by simp)
        · rw [mapGet_mapDelete_ne hc] at h
          exact Or.inl ⟨r', h, rfl, Or.inl rfl⟩
  | leaveRest pid =>
      rw [show step (Op.leaveRest pid) s = (leaveHandler pid s).2 from rfl,
        getRoom_eq_of_rooms_eq (leaveHandler_rooms pid s) code] at h
      exact Or.inl ⟨r', h, rfl, Or.inl rfl⟩
  | socketLeave pid =>
      rw [show step (Op.socketLeave pid) s = socketLeaveRoom pid s from rfl,
        getRoom_eq_of_rooms_eq (socketLeaveRoom_rooms pid s) code] at h
      exact Or.inl ⟨r', h, rfl, Or.inl rfl⟩
  | socketCleanup code0 pid host =>
      rw [show step (Op.socketCleanup code0 pid host) s = socketCleanupRoom code0 pid host s
        from rfl] at h
      rcases socketCleanupRoom_rooms_cases code0 pid host s with hr | hr
      · rw [getRoom_eq_of_rooms_eq hr code] at h
        exact Or.inl ⟨r', h, rfl, Or.inl rfl⟩
      · unfold getQuizRoomByCode at h
        rw [hr] at h
        by_cases hc : code = code0
        · subst hc
          rw [mapGet_mapDelete_self] at h
          exact absurd h (by simp)
        · rw [mapGet_mapDelete_ne hc] at h
          exact Or.inl ⟨r', h, rfl, Or.inl rfl⟩
  | socketStart code0 host =>
      rw [show step (Op.socketStart code0 host) s = socketStartQuiz code0 host s from rfl] at h
      rcases socketStartQuiz_rooms_cases code0 host s with hr | ⟨room, hget, hr⟩
      · rw [getRoom_eq_of_rooms_eq hr code] at h
        exact Or.inl ⟨r', h, rfl, Or.inl rfl⟩
      · unfold getQuizRoomByCode at h
        rw [hr] at h
        by_cases hc : code = code0
        · subst hc
          rw [mapGet_mapSet_self] at h
          injection h with h
          subst h
          exact Or.inl ⟨room, hget, rfl, Or.inr (by simp)⟩
        · rw [mapGet_mapSet_ne hc] at h
          exact Or.inl ⟨r', h, rfl, Or.inl rfl⟩
  | socketNext code0 host =>
      rw [show step (Op.socketNext code0 host) s = socketNextQuestion code0 host s from rfl] at h
      rcases socketNextQuestion_rooms_cases code0 host s with hr | hcase
      · rw [getRoom_eq_of_rooms_eq hr code] at h
        exact Or.inl ⟨r', h, rfl, Or.inl rfl⟩
      · rcases hcase with ⟨room, n, hget, hr⟩ | ⟨room, hget, hr⟩
        · unfold getQuizRoomByCode at h
          rw [hr] at h
          by_cases hc : code = code0
          · subst hc
            rw [mapGet_mapSet_self] at h
            injection h with h
            subst h
            exact Or.inl ⟨room, hget, rfl, Or.inl rfl⟩
          · rw [mapGet_mapSet_ne hc] at h
            exact Or.inl ⟨r', h, rfl, Or.inl rfl⟩
        · unfold getQuizRoomByCode at h
          rw [hr] at h
          by_cases hc : code = code0
          · subst hc
            rw [mapGet_mapSet_self] at h
            injection h with h
            subst h
            exact Or.inl ⟨room, hget, rfl, Or.inr (by simp)⟩
          · rw [mapGet_mapSet_ne hc] at h
            exact Or.inl ⟨r', h, rfl, Or.inl rfl⟩
  | socketFinish code0 host =>
      rw [show step (Op.socketFinish code0 host) s = socketQuizFinished code0 host s
        from rfl] at h
      rcases socketQuizFinished_rooms_cases code0 host s with hr | ⟨room, hget, hr⟩
      · rw [getRoom_eq_of_rooms_eq hr code] at h
        exact Or.inl ⟨r', h, rfl, Or.inl rfl⟩
      · unfold getQuizRoomByCode at h
        rw [hr] at h
        by_cases hc : code = code0
        · subst hc
          rw [mapGet_mapSet_self] at h
          injection h with h
          subst h
          exact Or.inl ⟨room, hget, rfl, Or.inr (by simp)⟩
        · rw [mapGet_mapSet_ne hc] at h
          exact Or.inl ⟨r', h, rfl, Or.inl rfl⟩

/-! ### C1: room status transitions -/

def exPicksA : Nat → Fin 6 → Fin 36 := fun _ _ => ⟨0, by omega⟩

def exCreateReq : CreateQuizRequest :=
  { topic := "Space", questionCount := 5, timePerQuestion := 15, hostId := "h1" }

def c1TraceFinished : List Op :=
  [Op.createQuiz exCreateReq exPicksA none,
   Op.socketStart "AAAAAA" true,
   Op.socketFinish "AAAAAA" true]

/-- C1, counterexample: the start-quiz handler never checks that the room is
in `waiting` status, so a reachable execution (create, start, finish, start
again — all by the host) moves the same room (id 1) from `finished` back to
`active`, and Start does not require `waiting`.  This refutes both the
forward-only transition claim and the "Start requires waiting" clause. -/
theorem c1_forward_only_counterexample :
    (getQuizRoomByCode "AAAAAA" (runOps c1TraceFinished St.empty)).map QuizRoom.status =
      some RoomStatus.finished ∧
    (getQuizRoomByCode "AAAAAA" (runOps c1TraceFinished St.empty)).map QuizRoom.id = some 1 ∧
    (getQuizRoomByCode "AAAAAA"
        (runOps (c1TraceFinished ++ [Op.socketStart "AAAAAA" true]) St.empty)).map
      QuizRoom.status = some RoomStatus.active ∧
    (getQuizRoomByCode "AAAAAA"
        (runOps (c1TraceFinished ++ [Op.socketStart "AAAAAA" true]) St.empty)).map
      QuizRoom.id = some 1 := by
  decide

/-- C1 (amended): across every sequence of controller/socket operations, a
room that persists (same id under its code) never returns to `waiting` once
its status is `active` or `finished`; however Start does not require the
room to be in `waiting` — start-quiz on an active or finished room sets it
back to `active`, so `finished` → `active` is reachable (see the
counterexample). -/
theorem c1_no_return_to_waiting (ops : List Op) (s : St) (code : String)
    (r r' : QuizRoom) (hinv : StInv s)
    (hr : getQuizRoomByCode code s = some r) (hw : r.status ≠ RoomStatus.waiting)
    (hr' : getQuizRoomByCode code (runOps ops s) = some r') (hid : r'.id = r.id) :
    r'.status ≠ RoomStatus.waiting := by
  have hrlt : r.id < s.currentRoomId := hinv.1 r (mapGet_some_val_mem hr)
  have hbase : ∀ r0, getQuizRoomByCode code s = some r0 → r0.id = r.id →
      r0.status ≠ RoomStatus.waiting := by
    intro r0 h0 _
    rw [hr] at h0
    injection h0 with h0
    rw [← h0]
    exact hw
  suffices hsuff : ∀ (t : St), StInv t → r.id < t.currentRoomId →
      (∀ r0, getQuizRoomByCode code t = some r0 → r0.id = r.id →
        r0.status ≠ RoomStatus.waiting) →
      ∀ r1, getQuizRoomByCode code (runOps ops t) = some r1 → r1.id = r.id →
        r1.status ≠ RoomStatus.waiting by
    exact hsuff s hinv hrlt hbase r' hr' hid
  clear hr hw hr' hid hrlt hbase hinv
  induction ops with
  | nil =>
      intro t _ _ hgood r1 h1 hid1
      exact hgood r1 h1 hid1
  | cons op rest ih =>
      intro t hinvt hlt hgood r1 h1 hid1
      apply ih (step op t) (step_StInv op t hinvt)
        (lt_of_lt_of_le hlt (step_roomCounter_mono op t)) ?_ r1 h1 hid1
      intro r0 h0 hid0
      rcases step_room_cases op t code r0 h0 with ⟨r2, hr2, hid2, hst⟩ | ⟨_, _, hidc⟩
      · have hprev := hgood r2 hr2 (by rw [← hid2]; exact hid0)
        rcases hst with he | hne
        · rw [he]; exact hprev
        · exact hne
      · exfalso
        rw [hid0] at hidc
        omega

/-- C1 witness state: a single finished room. -/
def wRoomC1 : QuizRoom :=
  { id := 1, roomCode := "ABC123", hostId := "h1", topic := "t", questionCount := 5
    timePerQuestion := 15, status := RoomStatus.finished, currentQuestionIndex := 0 }

def wStateC1 : St :=
  { quizRooms := [("ABC123", wRoomC1)], questions := [], players := [], answers := []
    currentRoomId := 2, currentQuestionId := 1, currentPlayerId := 1, currentAnswerId := 1 }

/-- C1 witness: the amended theorem applied to a concrete finished room and
the start-quiz operation. -/
theorem c1_no_return_to_waiting_witness :
    ({ wRoomC1 with status := RoomStatus.active } : QuizRoom).status ≠ RoomStatus.waiting :=
  c1_no_return_to_waiting [Op.socketStart "ABC123" true] wStateC1 "ABC123" wRoomC1
    { wRoomC1 with status := RoomStatus.active }
    (by
      unfold StInv RoomIdsBelow PlayerRoomsBelow PlayersNodup
      exact ⟨by decide, by decide, by decide⟩)
    (by decide) (by decide) (by decide) (by decide)

/-! ### C4: shape of generateQuizQuestions output -/

theorem fallback_wellformed :
    ∀ q ∈ FALLBACK_QUESTIONS,
      q.options.length = 4 ∧ 0 ≤ q.correctAnswer ∧ q.correctAnswer ≤ 3 := by
  decide

theorem fallback_length : FALLBACK_QUESTIONS.length = 10 := by decide

/-- C4, counterexample: the claim says that for every count in 5..20 the
function returns exactly `count` items even on upstream failure, but the
fallback list holds only 10 questions and is truncated, never padded: for
topic "X" and count 15 an upstream failure yields 10 items, not 15. -/
theorem c4_exact_count_counterexample :
    (5 ≤ 15 ∧ 15 ≤ 20) ∧ (generateQuizQuestions "X" 15 none).length ≠ 15 := by
  decide

/-- C4 (amended): for every topic and count in 5..20, `generateQuizQuestions`
returns (never raises) an ordered sequence in which every item has exactly 4
options and a correctAnswer in [0,3]; the sequence has exactly
min(count, n) items, where n is the size of its source — 10 (the fallback
list) on any upstream failure or validation failure, and the length of the
upstream list when every upstream item validates.  Exactly `count` items are
therefore guaranteed on the failure path only when count ≤ 10. -/
theorem c4_generate_questions_shape (topic : String) (questionCount : Nat)
    (upstream : Option (List RawQuestion))
    (hlo : 5 ≤ questionCount) (hhi : questionCount ≤ 20) :
    (∀ q ∈ generateQuizQuestions topic questionCount upstream,
        q.options.length = 4 ∧ 0 ≤ q.correctAnswer ∧ q.correctAnswer ≤ 3) ∧
    (upstream = none →
        (generateQuizQuestions topic questionCount upstream).length = min questionCount 10) ∧
    (∀ qs, upstream = some qs → qs.any invalidRawQuestion = true →
        (generateQuizQuestions topic questionCount upstream).length = min questionCount 10) ∧
    (∀ qs, upstream = some qs → qs.any invalidRawQuestion = false →
        (generateQuizQuestions topic questionCount upstream).length = min questionCount qs.length) ∧
    (questionCount ≤ 10 → upstream = none →
        (generateQuizQuestions topic questionCount upstream).length = questionCount) := by
  refine ⟨?_, ?_, ?_, ?_, ?_⟩
  · intro q hq
    rcases upstream with _ | qs
    · exact fallback_wellformed q (List.take_subset _ _ hq)
    · by_cases hinv : qs.any invalidRawQuestion = true
      · simp only [generateQuizQuestions, hinv, if_pos] at hq
        exact fallback_wellformed q (List.take_subset _ _ hq)
      · simp only [generateQuizQuestions, hinv, if_neg, if_false] at hq
        have hq' := List.take_subset _ _ hq
        rcases List.mem_map.mp hq' with ⟨raw, hraw, hconv⟩
        have hvalid : invalidRawQuestion raw = false := by
          rcases Bool.eq_false_or_eq_true (invalidRawQuestion raw) with h | h
          · exact absurd (List.any_eq_true.mpr ⟨raw, hraw, h⟩) hinv
          · exact h
        simp only [invalidRawQuestion, Bool.or_eq_false_iff, decide_eq_false_iff_not,
          not_lt, not_le, ne_eq, not_not] at hvalid
        subst hconv
        refine ⟨?_, ?_, ?_⟩
        · show raw.options.length = 4
          tauto
        · show (0:Int) ≤ raw.correctAnswer
          tauto
        · show raw.correctAnswer ≤ (3:Int)
          tauto
  · intro h
    subst h
    simp [generateQuizQuestions, List.length_take, fallback_length]
  · intro qs h hinv
    subst h
    simp [generateQuizQuestions, hinv, List.length_take, fallback_length]
  · intro qs h hinv
    subst h
    simp [generateQuizQuestions, hinv, List.length_take]
  · intro hle h
    subst h
    simp [generateQuizQuestions, List.length_take, fallback_length]
    omega

/-- C4 witness: at topic "X", count 7 and an upstream failure the amended
theorem yields exactly 7 items. -/
theorem c4_generate_questions_shape_witness :
    ((5:Nat) ≤ 7 ∧ (7:Nat) ≤ 20) ∧ (generateQuizQuestions "X" 7 none).length = 7 :=
  ⟨⟨by decide, by decide⟩,
    (c4_generate_questions_shape "X" 7 none (by decide) (by decide)).2.2.2.2 (by decide) rfl⟩

/-! ### C6: cleanup authorization -/

def c6Room : QuizRoom :=
  { id := 1, roomCode := "XYZ789", hostId := "host9", topic := "t", questionCount := 5
    timePerQuestion := 15, status := RoomStatus.waiting, currentQuestionIndex := 0 }

def c6State : St :=
  { quizRooms := [("XYZ789", c6Room)], questions := [], players := [], answers := []
    currentRoomId := 2, currentQuestionId := 1, currentPlayerId := 1, currentAnswerId := 1 }

/-- C6, counterexample: the socket cleanup-room handler checks only the
client-supplied isHost flag and never compares the supplied identity with
the room's stored hostId, so an identity different from the host, claiming
isHost = true, deletes the room instead of being rejected. -/
theorem c6_socket_cleanup_bypass_counterexample :
    ("intruder" ≠ c6Room.hostId) ∧
    getQuizRoomByCode "XYZ789" c6State = some c6Room ∧
    getQuizRoomByCode "XYZ789" (socketCleanupRoom "XYZ789" "intruder" true c6State) = none := by
  decide

/-- C6 (amended): the REST cleanup endpoint does compare identities — a
request whose playerId differs from the room's hostId gets 403 and leaves
the store unchanged; the socket path only drops the message when its
self-reported isHost flag is false (store unchanged), so a non-host identity
that claims isHost = true can delete the room. -/
theorem c6_cleanup_auth :
    (∀ (s : St) (code pid : String) (room : QuizRoom),
      getQuizRoomByCode code s = some room → room.hostId ≠ pid →
      cleanupRoomRestHandler code pid s = (CleanupResult.forbidden, s)) ∧
    (∀ (s : St) (code pid : String), socketCleanupRoom code pid false s = s) := by
  constructor
  · intro s code pid room hg hne
    unfold cleanupRoomRestHandler
    rw [hg]
    simp only
    rw [if_pos hne]
  · intro s code pid
    rfl

/-- C6 witness: the amended theorem applied to a concrete non-host REST
request. -/
theorem c6_cleanup_auth_witness :
    cleanupRoomRestHandler "XYZ789" "intruder" c6State = (CleanupResult.forbidden, c6State) :=
  c6_cleanup_auth.1 c6State "XYZ789" "intruder" c6Room (by decide) (by decide)

/-! ### C3: answer scoring -/

theorem orDefaultInt_of_ne {x d : Int} (h : x ≠ 0) : orDefaultInt x d = x := by
  unfold orDefaultInt
  rw [if_neg h]

theorem orDefaultInt_zero (x : Int) : orDefaultInt x 0 = x := by
  unfold orDefaultInt
  by_cases h : x = 0
  · rw [if_pos h, h]
  · rw [if_neg h]

/-- C3: on the successful submission path, correctness is the equality of
the selected index with the question's correct index; a correct answer
awards 100 + max(0, timePerQuestion − timeToAnswer) × 10 points and the
player's score increases by exactly that amount; an incorrect answer awards
0 points and leaves the score unchanged; a submission whose elapsed time
equals or exceeds the budget is still accepted (the result is `ok`), with
zero time bonus. -/
theorem c3_scoring (req : SubmitAnswerRequest) (s : St) (player : Player)
    (question : Question) (room : QuizRoom)
    (hp : getPlayerById req.playerId s = some player)
    (hna : hasPlayerAnswered req.playerId req.questionId s = false)
    (hq : getQuestionById req.questionId s = some question)
    (hmatch : question.roomId = player.roomId)
    (hroom : getQuizRoomByPlayerId req.playerId s = some room)
    (htpq : room.timePerQuestion ≠ 0) :
    ((submitAnswerHandler req s).1 =
      SubmitResult.ok (decide (req.selectedAnswer = question.correctAnswer))
        (if req.selectedAnswer = question.correctAnswer then
          100 + max 0 (room.timePerQuestion - req.timeToAnswer) * 10 else 0)
        (player.score +
          (if req.selectedAnswer = question.correctAnswer then
            100 + max 0 (room.timePerQuestion - req.timeToAnswer) * 10 else 0))
        question.correctAnswer) ∧
    (getPlayerById req.playerId (submitAnswerHandler req s).2 =
      some { player with score := player.score +
        (if req.selectedAnswer = question.correctAnswer then
          100 + max 0 (room.timePerQuestion - req.timeToAnswer) * 10 else 0) }) ∧
    (req.timeToAnswer ≥ room.timePerQuestion →
      (if req.selectedAnswer = question.correctAnswer then
        100 + max 0 (room.timePerQuestion - req.timeToAnswer) * 10 else 0) =
      (if req.selectedAnswer = question.correctAnswer then (100:Int) else 0)) := by
  have hnot : ¬ (question.roomId ≠ player.roomId) := fun hh => hh hmatch
  have hbool : ¬ (hasPlayerAnswered req.playerId req.questionId s = true) := by
    rw [hna]
    exact Bool.false_ne_true
  have hp' : mapGet req.playerId s.players = some player := hp
  refine ⟨?_, ?_, ?_⟩
  · simp only [submitAnswerHandler, hp, hq, hroom, if_neg hbool, if_neg hnot,
      orDefaultInt_of_ne htpq, createAnswerSt, updatePlayerScoreSt, hp',
      orDefaultInt_zero, decide_eq_true_eq]
  · simp only [submitAnswerHandler, hp, hq, hroom, if_neg hbool, if_neg hnot,
      orDefaultInt_of_ne htpq, createAnswerSt, updatePlayerScoreSt, hp',
      orDefaultInt_zero, decide_eq_true_eq, getPlayerById, mapGet_mapSet_self]
  · intro hle
    have hx : room.timePerQuestion - req.timeToAnswer ≤ 0 := by omega
    rw [max_eq_left hx]
    simp

/-- C3 witness state: a created room ("Space", 5 questions, 15s budget,
host "h1") joined by player "p1". -/
def c3State : St :=
  (joinQuizHandler { roomCode := "AAAAAA", name := "Alice", playerId := "p1" }
    (createQuizHandler exCreateReq exPicksA none St.empty).2).2

def c3Player : Player :=
  { id := 2, roomId := 1, name := "Alice", playerId := "p1", score := 0, isHost := false }

def c3Question : Question :=
  { id := 1, roomId := 1, questionText := "What is the capital of France?"
    options := ["London", "Berlin", "Paris", "Madrid"], correctAnswer := 2, order := 0 }

def c3Room : QuizRoom :=
  { id := 1, roomCode := "AAAAAA", hostId := "h1", topic := "Space", questionCount := 5
    timePerQuestion := 15, status := RoomStatus.waiting, currentQuestionIndex := 0 }

/-- C3 witness: the spec's own example — a correct answer with 3s elapsed
out of a 15s budget scores 100 + 12 × 10 = 220. -/
theorem c3_scoring_witness :
    (submitAnswerHandler
      { playerId := "p1", questionId := 1, selectedAnswer := 2, timeToAnswer := 3 }
      c3State).1 = SubmitResult.ok true 220 220 2 :=
  ((c3_scoring { playerId := "p1", questionId := 1, selectedAnswer := 2, timeToAnswer := 3 }
      c3State c3Player c3Question c3Room (by decide) (by decide) (by decide) (by decide)
      (by decide) (by decide)).1).trans (by decide)

/-! ### Well-keyed stores: each map's key is the field MemStorage keys by -/

/-- Rooms are stored under their roomCode. -/
def WKRooms (s : St) : Prop := ∀ e ∈ s.quizRooms, e.2.roomCode = e.1

/-- Questions are stored under their id. -/
def WKQuestions (s : St) : Prop := ∀ e ∈ s.questions, e.2.id = e.1

/-- Players are stored under their playerId. -/
def WKPlayers (s : St) : Prop := ∀ e ∈ s.players, e.2.playerId = e.1

/-- Answers are stored under their id. -/
def WKAnswers (s : St) : Prop := ∀ e ∈ s.answers, e.2.id = e.1

/-- After `cleanupPlayer` succeeds, no stored answer carries the player's
identity (the loop deletes each of the player's answers by its id). -/
theorem cleanupPlayerSt_answers_complete (pid : String) (s : St)
    (hwk : WKAnswers s) (p : Player) (hp : mapGet pid s.players = some p) :
    ∀ e ∈ (cleanupPlayerSt pid s).2.answers, e.2.playerId ≠ pid := by
  intro e he
  unfold cleanupPlayerSt at he
  rw [hp] at he
  simp only at he
  have h2 := mem_foldl_mapDelete (fun a : Answer => a.id) _ _ _ he
  intro hpe
  have hmem : e.2 ∈ (mapValues s.answers).filter (fun a => decide (a.playerId = pid)) :=
    List.mem_filter.mpr ⟨List.mem_map.mpr ⟨e, h2.1, rfl⟩, by simp [hpe]⟩
  exact h2.2 e.2 hmem (hwk e h2.1).symm

/-! ### C8: the join operation -/

/-- C8: a Join request is answered 404 when the room does not exist, 400
(already started) when its status is not `waiting`, 400 (already joined)
when the identity is already a player of this exact room; when the identity
belongs to a different room or to none, a fresh Player with score 0 and
host flag false is created (removing a stale membership and its answers
first) and the response carries the room, the new player and the full
roster, which contains the new player. -/
theorem c8_join (req : JoinQuizRequest) (s : St) :
    (getQuizRoomByCode req.roomCode s = none →
      joinQuizHandler req s = (JoinResult.roomNotFound, s)) ∧
    (∀ room, getQuizRoomByCode req.roomCode s = some room →
      room.status ≠ RoomStatus.waiting →
      joinQuizHandler req s = (JoinResult.alreadyStarted, s)) ∧
    (∀ room p, getQuizRoomByCode req.roomCode s = some room →
      room.status = RoomStatus.waiting →
      getPlayerById req.playerId s = some p → p.roomId = room.id →
      joinQuizHandler req s = (JoinResult.alreadyJoined, s)) ∧
    (∀ room, getQuizRoomByCode req.roomCode s = some room →
      room.status = RoomStatus.waiting →
      (getPlayerById req.playerId s = none ∨
        (∃ p, getPlayerById req.playerId s = some p ∧ p.roomId ≠ room.id)) →
      ∃ newP : Player,
        (joinQuizHandler req s).1 =
          JoinResult.ok newP room (getPlayersByRoomId room.id (joinQuizHandler req s).2) ∧
        newP.score = 0 ∧ newP.isHost = false ∧ newP.roomId = room.id ∧
        newP.playerId = req.playerId ∧ newP.name = req.name ∧
        getPlayerById req.playerId (joinQuizHandler req s).2 = some newP ∧
        newP ∈ getPlayersByRoomId room.id (joinQuizHandler req s).2) ∧
    (∀ room p, getQuizRoomByCode req.roomCode s = some room →
      room.status = RoomStatus.waiting →
      getPlayerById req.playerId s = some p → p.roomId ≠ room.id → WKAnswers s →
      getAnswersByPlayerId req.playerId (joinQuizHandler req s).2 = []) := by
  refine ⟨?_, ?_, ?_, ?_, ?_⟩
  · intro h
    unfold joinQuizHandler
    rw [h]
  · intro room hsome hne
    unfold joinQuizHandler
    rw [hsome]
    simp only
    rw [if_pos hne]
  · intro room p hsome hst hp hpr
    have hcond : ¬ (room.status ≠ RoomStatus.waiting) := fun hh => hh hst
    unfold joinQuizHandler
    rw [hsome]
    simp only
    rw [if_neg hcond, hp]
    simp only
    rw [if_pos hpr]
  · intro room hsome hst hdisj
    have hcond : ¬ (room.status ≠ RoomStatus.waiting) := fun hh => hh hst
    rcases hdisj with hnone | ⟨p, hp, hpr⟩
    · unfold joinQuizHandler
      rw [hsome]
      simp only
      rw [if_neg hcond, hnone]
      unfold joinFinish
      refine ⟨_, rfl, ?_, ?_, ?_, ?_, ?_, mapGet_mapSet_self, ?_⟩
      · exact rfl
      · exact rfl
      · show room.id = room.id
        exact rfl
      · exact rfl
      · exact rfl
      · apply (mem_sortBy _ _ _).mpr
        apply List.mem_filter.mpr
        exact ⟨mapGet_some_val_mem mapGet_mapSet_self, by simp [createPlayerSt]⟩
    · unfold joinQuizHandler
      rw [hsome]
      simp only
      rw [if_neg hcond, hp]
      simp only
      rw [if_neg hpr]
      unfold joinFinish
      refine ⟨_, rfl, ?_, ?_, ?_, ?_, ?_, mapGet_mapSet_self, ?_⟩
      · exact rfl
      · exact rfl
      · show room.id = room.id
        exact rfl
      · exact rfl
      · exact rfl
      · apply (mem_sortBy _ _ _).mpr
        apply List.mem_filter.mpr
        exact ⟨mapGet_some_val_mem mapGet_mapSet_self, by simp [createPlayerSt]⟩
  · intro room p hsome hst hp hpr hwk
    have hcond : ¬ (room.status ≠ RoomStatus.waiting) := fun hh => hh hst
    unfold joinQuizHandler
    rw [hsome]
    simp only
    rw [if_neg hcond, hp]
    simp only
    rw [if_neg hpr]
    unfold joinFinish
    show getAnswersByPlayerId req.playerId (createPlayerSt _ _).2 = []
    unfold getAnswersByPlayerId
    apply List.filter_eq_nil_iff.mpr
    intro a ha
    rcases List.mem_map.mp ha with ⟨e, hem, hev⟩
    have := cleanupPlayerSt_answers_complete req.playerId s hwk p hp e hem
    rw [← hev]
    simpa using this

/-- C8 witness state: a waiting room with one player already in it. -/
def c8Player : Player :=
  { id := 1, roomId := 1, name := "Ann", playerId := "pa", score := 0, isHost := false }

def c8State : St :=
  { quizRooms := [("XYZ789", c6Room)], questions := []
    players := [("pa", c8Player)], answers := []
    currentRoomId := 2, currentQuestionId := 1, currentPlayerId := 2, currentAnswerId := 1 }

/-- C8 witness: joining the same room twice with the same identity is
rejected and leaves the store unchanged. -/
theorem c8_join_witness :
    joinQuizHandler { roomCode := "XYZ789", name := "Ann", playerId := "pa" } c8State =
      (JoinResult.alreadyJoined, c8State) :=
  (c8_join { roomCode := "XYZ789", name := "Ann", playerId := "pa" } c8State).2.2.1
    c6Room c8Player (by decide) (by decide) (by decide) (by decide)

/-! ### C5: cleanup cascade completeness -/

/-- The per-question answer-deletion loop of `cleanupRoom`: after folding
over a list of questions, no surviving answer refers to any of them. -/
theorem foldl_answers_delete_complete :
    ∀ (qs : List Question) (m : List (Nat × Answer)),
      (∀ e ∈ m, e.2.id = e.1) →
      ∀ e ∈ qs.foldl (fun m2 q =>
          ((mapValues m2).filter (fun a => decide (a.questionId = q.id))).foldl
            (fun m3 a => mapDelete a.id m3) m2) m,
        e ∈ m ∧ ∀ q ∈ qs, e.2.questionId ≠ q.id := by
  intro qs
  induction qs with
  | nil =>
      intro m hwk e he
      exact ⟨he, by simp⟩
  | cons q rest ih =>
      intro m hwk e he
      simp only [List.foldl_cons] at he
      have hsub : (((mapValues m).filter (fun a => decide (a.questionId = q.id))).foldl
          (fun m3 a => mapDelete a.id m3) m).Sublist m :=
        foldl_mapDelete_sublist (fun a : Answer => a.id) _ m
      have hwk1 : ∀ e' ∈ ((mapValues m).filter (fun a => decide (a.questionId = q.id))).foldl
          (fun m3 a => mapDelete a.id m3) m, e'.2.id = e'.1 :=
        fun e' he' => hwk e' (hsub.subset he')
      have hqdel : ∀ e' ∈ ((mapValues m).filter (fun a => decide (a.questionId = q.id))).foldl
          (fun m3 a => mapDelete a.id m3) m, e'.2.questionId ≠ q.id := by
        intro e' he' hqe
        have h2 := mem_foldl_mapDelete (fun a : Answer => a.id) _ _ _ he'
        have hmem : e'.2 ∈ (mapValues m).filter (fun a => decide (a.questionId = q.id)) :=
          List.mem_filter.mpr ⟨List.mem_map.mpr ⟨e', h2.1, rfl⟩, by simp [hqe]⟩
        exact h2.2 e'.2 hmem (hwk e' h2.1).symm
      have hrec := ih _ hwk1 e he
      refine ⟨hsub.subset hrec.1, ?_⟩
      intro q' hq'
      rcases List.mem_cons.mp hq' with h' | h'
      · subst h'
        exact hqdel e hrec.1
      · exact hrec.2 q' h'

/-- C5: after a successful Cleanup(R), the room is no longer retrievable by
its code, no player of R and no question of R remains in the store, and no
answer to any question that belonged to R remains. -/
theorem c5_cleanup_cascade (s : St) (code : String) (room : QuizRoom)
    (hwkp : WKPlayers s) (hwkq : WKQuestions s) (hwka : WKAnswers s)
    (hroom : getQuizRoomByCode code s = some room) :
    (cleanupRoomSt code s).1 = true ∧
    getQuizRoomByCode code (cleanupRoomSt code s).2 = none ∧
    (∀ p ∈ mapValues (cleanupRoomSt code s).2.players, p.roomId ≠ room.id) ∧
    (∀ q ∈ mapValues (cleanupRoomSt code s).2.questions, q.roomId ≠ room.id) ∧
    (∀ a ∈ mapValues (cleanupRoomSt code s).2.answers,
      ∀ q ∈ mapValues s.questions, q.roomId = room.id → a.questionId ≠ q.id) := by
  have hget : mapGet code s.quizRooms = some room := hroom
  unfold cleanupRoomSt
  rw [hget]
  simp only
  refine ⟨by trivial, ?_, ?_, ?_, ?_⟩
  · show mapGet code (mapDelete code s.quizRooms) = none
    exact mapGet_mapDelete_self
  · intro p hp hpr
    rcases List.mem_map.mp hp with ⟨e, hem, hev⟩
    have h2 := mem_foldl_mapDelete (fun x : Player => x.playerId) _ _ _ hem
    have hmem : e.2 ∈ (mapValues s.players).filter (fun x => decide (x.roomId = room.id)) :=
      List.mem_filter.mpr ⟨List.mem_map.mpr ⟨e, h2.1, rfl⟩, by rw [hev]; simp [hpr]⟩
    exact h2.2 e.2 hmem (hwkp e h2.1).symm
  · intro q hq hqr
    rcases List.mem_map.mp hq with ⟨e, hem, hev⟩
    have h2 := mem_foldl_mapDelete (fun x : Question => x.id) _ _ _ hem
    have hmem : e.2 ∈ (mapValues s.questions).filter (fun x => decide (x.roomId = room.id)) :=
      List.mem_filter.mpr ⟨List.mem_map.mpr ⟨e, h2.1, rfl⟩, by rw [hev]; simp [hqr]⟩
    exact h2.2 e.2 hmem (hwkq e h2.1).symm
  · intro a ha q hqm hqr haq
    rcases List.mem_map.mp ha with ⟨e, hem, hev⟩
    have h := foldl_answers_delete_complete
      ((mapValues s.questions).filter (fun x => decide (x.roomId = room.id))) s.answers
      hwka e hem
    apply h.2 q (List.mem_filter.mpr ⟨hqm, by simp [hqr]⟩)
    rw [hev]
    exact haq

/-- C5 witness state: one room with one player, one question and one
answer to that question. -/
def c5Room : QuizRoom :=
  { id := 1, roomCode := "ROOM01", hostId := "h1", topic := "t", questionCount := 5
    timePerQuestion := 15, status := RoomStatus.active, currentQuestionIndex := 0 }

def c5State : St :=
  { quizRooms := [("ROOM01", c5Room)]
    questions := [(1, { id := 1, roomId := 1, questionText := "q", options := ["a", "b", "c", "d"]
                        correctAnswer := 0, order := 0 })]
    players := [("pa", { id := 1, roomId := 1, name := "Ann", playerId := "pa", score := 100
                         isHost := false })]
    answers := [(1, { id := 1, playerId := "pa", questionId := 1, selectedAnswer := 0
                      isCorrect := true, timeToAnswer := 3 })]
    currentRoomId := 2, currentQuestionId := 2, currentPlayerId := 2, currentAnswerId := 2 }

/-- C5 witness: the cascade theorem applied to the concrete state. -/
theorem c5_cleanup_cascade_witness :
    (cleanupRoomSt "ROOM01" c5State).1 = true ∧
    getQuizRoomByCode "ROOM01" (cleanupRoomSt "ROOM01" c5State).2 = none :=
  ⟨(c5_cleanup_cascade c5State "ROOM01" c5Room (by unfold WKPlayers; decide)
      (by unfold WKQuestions; decide) (by unfold WKAnswers; decide) (by decide)).1,
   (c5_cleanup_cascade c5State "ROOM01" c5Room (by unfold WKPlayers; decide)
      (by unfold WKQuestions; decide) (by unfold WKAnswers; decide) (by decide)).2.1⟩

/-! ### C2: at most one answer per (player, question) -/

/-- No two stored answers share a (player, question) pair. -/
def AtMostOneAnswer (s : St) : Prop :=
  ∀ (pid : String) (qid : Nat),
    ((mapValues s.answers).countP
      (fun a => decide (a.playerId = pid) && decide (a.questionId = qid))) ≤ 1

theorem foldl_sublist {γ δ : Type} (F : List δ → γ → List δ)
    (h : ∀ m x, (F m x).Sublist m) : ∀ (L : List γ) (m : List δ), (L.foldl F m).Sublist m := by
  intro L
  induction L with
  | nil => intro m; exact List.Sublist.refl m
  | cons x xs ih =>
      intro m
      simp only [List.foldl_cons]
      exact (ih (F m x)).trans (h m x)

theorem cleanupPlayerSt_answers_sublist (pid : String) (s : St) :
    (cleanupPlayerSt pid s).2.answers.Sublist s.answers := by
  unfold cleanupPlayerSt
  rcases mapGet pid s.players with _ | p
  · exact List.Sublist.refl _
  · exact foldl_mapDelete_sublist _ _ _

theorem cleanupRoomSt_answers_sublist (code : String) (s : St) :
    (cleanupRoomSt code s).2.answers.Sublist s.answers := by
  unfold cleanupRoomSt
  rcases mapGet code s.quizRooms with _ | room
  · exact List.Sublist.refl _
  · exact foldl_sublist _ (fun m q => foldl_mapDelete_sublist (fun a : Answer => a.id) _ m) _ _

theorem cleanupRoomSt_questions_sublist (code : String) (s : St) :
    (cleanupRoomSt code s).2.questions.Sublist s.questions := by
  unfold cleanupRoomSt
  rcases mapGet code s.quizRooms with _ | room
  · exact List.Sublist.refl _
  · exact foldl_mapDelete_sublist _ _ _

theorem clearAnswersForPlayerSt_answers_sublist (pid : String) (s : St) :
    (clearAnswersForPlayerSt pid s).answers.Sublist s.answers :=
  foldl_mapDelete_sublist _ _ _

theorem updateQuizRoomSt_questions (code : String) (f : QuizRoom → QuizRoom) (s : St) :
    (updateQuizRoomSt code f s).2.questions = s.questions := by
  unfold updateQuizRoomSt
  rcases mapGet code s.quizRooms with _ | room <;> rfl

theorem updateQuizRoomSt_answers (code : String) (f : QuizRoom → QuizRoom) (s : St) :
    (updateQuizRoomSt code f s).2.answers = s.answers := by
  unfold updateQuizRoomSt
  rcases mapGet code s.quizRooms with _ | room <;> rfl

theorem updatePlayerScoreSt_answers (pid : String) (sc : Int) (s : St) :
    (updatePlayerScoreSt pid sc s).2.answers = s.answers := by
  unfold updatePlayerScoreSt
  rcases mapGet pid s.players with _ | p <;> rfl

theorem updatePlayerScoreSt_questions (pid : String) (sc : Int) (s : St) :
    (updatePlayerScoreSt pid sc s).2.questions = s.questions := by
  unfold updatePlayerScoreSt
  rcases mapGet pid s.players with _ | p <;> rfl

theorem joinQuizHandler_questions (req : JoinQuizRequest) (s : St) :
    (joinQuizHandler req s).2.questions = s.questions := by
  unfold joinQuizHandler
  rcases getQuizRoomByCode req.roomCode s with _ | room
  · rfl
  · simp only
    by_cases hst : room.status ≠ RoomStatus.waiting
    · rw [if_pos hst]
    · rw [if_neg hst]
      rcases getPlayerById req.playerId s with _ | p
      · rfl
      · simp only
        by_cases hrm : p.roomId = room.id
        · rw [if_pos hrm]
        · rw [if_neg hrm]
          show (cleanupPlayerSt req.playerId s).2.questions = s.questions
          exact cleanupPlayerSt_questions _ _

theorem joinQuizHandler_answers_sublist (req : JoinQuizRequest) (s : St) :
    (joinQuizHandler req s).2.answers.Sublist s.answers := by
  unfold joinQuizHandler
  rcases getQuizRoomByCode req.roomCode s with _ | room
  · exact List.Sublist.refl _
  · simp only
    by_cases hst : room.status ≠ RoomStatus.waiting
    · rw [if_pos hst]
    · rw [if_neg hst]
      rcases getPlayerById req.playerId s with _ | p
      · exact List.Sublist.refl _
      · simp only
        by_cases hrm : p.roomId = room.id
        · rw [if_pos hrm]
        · rw [if_neg hrm]
          show ((cleanupPlayerSt req.playerId s).2.answers).Sublist s.answers
          exact cleanupPlayerSt_answers_sublist _ _

theorem submitAnswerHandler_questions (req : SubmitAnswerRequest) (s : St) :
    (submitAnswerHandler req s).2.questions = s.questions := by
  unfold submitAnswerHandler
  rcases getPlayerById req.playerId s with _ | player
  · rfl
  · simp only
    by_cases ha : hasPlayerAnswered req.playerId req.questionId s = true
    · rw [if_pos ha]
    · rw [if_neg ha]
      rcases getQuestionById req.questionId s with _ | question
      · rfl
      · simp only
        by_cases hq : question.roomId ≠ player.roomId
        · rw [if_pos hq]
        · rw [if_neg hq]
          exact (updatePlayerScoreSt_questions _ _ _).trans rfl

theorem submitAnswerHandler_answers_cases (req : SubmitAnswerRequest) (s : St) :
    (submitAnswerHandler req s).2 = s ∨
    ∃ question,
      hasPlayerAnswered req.playerId req.questionId s = false ∧
      getQuestionById req.questionId s = some question ∧
      (submitAnswerHandler req s).2.answers =
        mapSet s.currentAnswerId
          { id := s.currentAnswerId, playerId := req.playerId, questionId := question.id
            selectedAnswer := req.selectedAnswer
            isCorrect := decide (req.selectedAnswer = question.correctAnswer)
            timeToAnswer := req.timeToAnswer } s.answers := by
  unfold submitAnswerHandler
  rcases getPlayerById req.playerId s with _ | player
  · exact Or.inl rfl
  · simp only
    by_cases ha : hasPlayerAnswered req.playerId req.questionId s = true
    · rw [if_pos ha]; exact Or.inl rfl
    · rw [if_neg ha]
      rcases hq : getQuestionById req.questionId s with _ | question
      · exact Or.inl rfl
      · simp only
        by_cases hmm : question.roomId ≠ player.roomId
        · rw [if_pos hmm]; exact Or.inl rfl
        · rw [if_neg hmm]
          right
          refine ⟨question, ?_, rfl, ?_⟩
          · rcases Bool.eq_false_or_eq_true
              (hasPlayerAnswered req.playerId req.questionId s) with h | h
            · exact absurd h ha
            · exact h
          · exact (updatePlayerScoreSt_answers _ _ _).trans rfl

theorem leaveHandler_answers_sublist (pid : String) (s : St) :
    (leaveHandler pid s).2.answers.Sublist s.answers := by
  unfold leaveHandler
  rcases getPlayerById pid s with _ | p
  · exact List.Sublist.refl _
  · simp only
    by_cases hb : (cleanupPlayerSt pid s).1 = true
    · rw [if_pos hb]; exact cleanupPlayerSt_answers_sublist _ _
    · rw [if_neg hb]; exact cleanupPlayerSt_answers_sublist _ _

theorem leaveHandler_questions (pid : String) (s : St) :
    (leaveHandler pid s).2.questions = s.questions := by
  unfold leaveHandler
  rcases getPlayerById pid s with _ | p
  · rfl
  · simp only
    by_cases hb : (cleanupPlayerSt pid s).1 = true
    · rw [if_pos hb]; exact cleanupPlayerSt_questions _ _
    · rw [if_neg hb]; exact cleanupPlayerSt_questions _ _

theorem cleanupRoomRestHandler_answers_sublist (code pid : String) (s : St) :
    (cleanupRoomRestHandler code pid s).2.answers.Sublist s.answers := by
  unfold cleanupRoomRestHandler
  rcases getQuizRoomByCode code s with _ | room
  · exact List.Sublist.refl _
  · simp only
    by_cases hh : room.hostId ≠ pid
    · rw [if_pos hh]
    · rw [if_neg hh]
      by_cases hb : (cleanupRoomSt code s).1 = true
      · rw [if_pos hb]; exact cleanupRoomSt_answers_sublist _ _
      · rw [if_neg hb]; exact cleanupRoomSt_answers_sublist _ _

theorem cleanupRoomRestHandler_questions_sublist (code pid : String) (s : St) :
    (cleanupRoomRestHandler code pid s).2.questions.Sublist s.questions := by
  unfold cleanupRoomRestHandler
  rcases getQuizRoomByCode code s with _ | room
  · exact List.Sublist.refl _
  · simp only
    by_cases hh : room.hostId ≠ pid
    · rw [if_pos hh]
    · rw [if_neg hh]
      by_cases hb : (cleanupRoomSt code s).1 = true
      · rw [if_pos hb]; exact cleanupRoomSt_questions_sublist _ _
      · rw [if_neg hb]; exact cleanupRoomSt_questions_sublist _ _

theorem wkq_createQuestions (L : List InsertQuestion) :
    ∀ (t : St), WKQuestions t → ∀ e ∈ (createQuestionsSt L t).2.questions, e.2.id = e.1 := by
  induction L with
  | nil => intro t h e he; exact h e he
  | cons q rest ih =>
      intro t h e he
      simp only [createQuestionsSt] at he
      apply ih _ ?_ e he
      intro e' he'
      rcases mem_mapSet he' with h' | h'
      · rw [h']
      · exact h e' h'

theorem wkq_createQuizHandler (req : CreateQuizRequest) (picks : Nat → Fin 6 → Fin 36)
    (upstream : Option (List RawQuestion)) (s : St) (h : WKQuestions s) :
    WKQuestions (createQuizHandler req picks upstream s).2 := by
  simp only [createQuizHandler]
  by_cases hex : (allocRoomCode (fun k => generateRoomCode (picks k))
      (fun code => (getQuizRoomByCode code s).isSome)).1 ≥ 10
  · rw [if_pos hex]; exact h
  · rw [if_neg hex]
    intro e he
    apply wkq_createQuestions _ _ ?_ e he
    intro e' he'
    exact h e' he'

theorem atMostOne_of_sublist {s s' : St} (hsub : s'.answers.Sublist s.answers)
    (h : AtMostOneAnswer s) : AtMostOneAnswer s' := by
  intro pid qid
  exact le_trans ((hsub.map Prod.snd).countP_le _) (h pid qid)

theorem wkq_of_sublist {s s' : St} (hsub : s'.questions.Sublist s.questions)
    (h : WKQuestions s) : WKQuestions s' :=
  fun e he => h e (hsub.subset he)

theorem wkq_of_eq {s s' : St} (heq : s'.questions = s.questions)
    (h : WKQuestions s) : WKQuestions s' := by
  intro e he
  rw [heq] at he
  exact h e he

theorem atMostOne_of_eq {s s' : St} (heq : s'.answers = s.answers)
    (h : AtMostOneAnswer s) : AtMostOneAnswer s' := by
  intro pid qid
  show (mapValues s'.answers).countP _ ≤ 1
  rw [heq]
  exact h pid qid

/-- One submission step preserves the single-answer invariant: when the
check passes, the pair being inserted had count 0 and every other pair is
untouched. -/
theorem atMostOne_submit (req : SubmitAnswerRequest) (s : St)
    (hwkq : WKQuestions s) (h : AtMostOneAnswer s) :
    AtMostOneAnswer (submitAnswerHandler req s).2 := by
  rcases submitAnswerHandler_answers_cases req s with heq | ⟨question, hna, hq, hans⟩
  · rw [heq]; exact h
  · have hqid : question.id = req.questionId := hwkq _ (mapGet_some_mem hq)
    intro pid qid
    show (mapValues (submitAnswerHandler req s).2.answers).countP _ ≤ 1
    rw [hans]
    refine le_trans (countP_values_mapSet _) ?_
    by_cases hpair : pid = req.playerId ∧ qid = req.questionId
    · -- the inserted pair: its prior count is zero
      have hzero : ((mapValues s.answers).countP
          (fun a => decide (a.playerId = pid) && decide (a.questionId = qid))) = 0 := by
        apply List.countP_eq_zero.mpr
        intro a ha
        intro hcontra
        rcases Bool.and_eq_true_iff.mp hcontra with ⟨h1, h2⟩
        have h1' : a.playerId = pid := of_decide_eq_true h1
        have h2' : a.questionId = qid := of_decide_eq_true h2
        have : (mapValues s.answers).any
            (fun a => decide (a.playerId = req.playerId) &&
              decide (a.questionId = req.questionId)) = true := by
          apply List.any_eq_true.mpr
          exact ⟨a, ha, by simp [h1', h2', hpair.1, hpair.2]⟩
        rw [show ((mapValues s.answers).any
            (fun a => decide (a.playerId = req.playerId) &&
              decide (a.questionId = req.questionId))) =
            hasPlayerAnswered req.playerId req.questionId s from rfl, hna] at this
        exact Bool.false_ne_true this
      rw [hzero]
      by_cases hnew : (fun a : Answer => decide (a.playerId = pid) &&
          decide (a.questionId = qid))
          { id := s.currentAnswerId, playerId := req.playerId, questionId := question.id
            selectedAnswer := req.selectedAnswer
            isCorrect := decide (req.selectedAnswer = question.correctAnswer)
            timeToAnswer := req.timeToAnswer } = true
      · rw [if_pos hnew]
      · rw [if_neg hnew]
        omega
    · -- any other pair: the new answer does not match it
      have hnew : ¬ ((fun a : Answer => decide (a.playerId = pid) &&
          decide (a.questionId = qid))
          { id := s.currentAnswerId, playerId := req.playerId, questionId := question.id
            selectedAnswer := req.selectedAnswer
            isCorrect := decide (req.selectedAnswer = question.correctAnswer)
            timeToAnswer := req.timeToAnswer } = true) := by
        intro hcontra
        rcases Bool.and_eq_true_iff.mp hcontra with ⟨h1, h2⟩
        have h1' : req.playerId = pid := of_decide_eq_true h1
        have h2' : question.id = qid := of_decide_eq_true h2
        exact hpair ⟨h1'.symm, by rw [← h2', hqid]⟩
      rw [if_neg hnew]
      have := h pid qid
      omega

/-- Every operation preserves well-keyed questions together with the
single-answer invariant. -/
theorem step_answerInv (op : Op) (s : St) (hwkq : WKQuestions s) (h : AtMostOneAnswer s) :
    WKQuestions (step op s) ∧ AtMostOneAnswer (step op s) := by
  cases op with
  | createQuiz req picks upstream =>
      refine ⟨wkq_createQuizHandler req picks upstream s hwkq, ?_⟩
      rcases createQuizHandler_result_cases req picks upstream s with hres | ⟨code, room, hres⟩
      · exact atMostOne_of_eq (by
          rw [show step (Op.createQuiz req picks upstream) s =
            (createQuizHandler req picks upstream s).2 from rfl,
            createQuizHandler_exhausted_state req picks upstream s hres]) h
      · exact atMostOne_of_eq
          (createQuizHandler_ok_state req picks upstream s code room hres).2.2.1 h
  | joinQuiz req =>
      exact ⟨wkq_of_eq (joinQuizHandler_questions req s) hwkq,
        atMostOne_of_sublist (joinQuizHandler_answers_sublist req s) h⟩
  | submitAnswer req =>
      exact ⟨wkq_of_eq (submitAnswerHandler_questions req s) hwkq,
        atMostOne_submit req s hwkq h⟩
  | clearAnswers pid =>
      exact ⟨wkq_of_eq rfl hwkq,
        atMostOne_of_sublist (clearAnswersForPlayerSt_answers_sublist pid s) h⟩
  | cleanupRest code pid =>
      exact ⟨wkq_of_sublist (cleanupRoomRestHandler_questions_sublist code pid s) hwkq,
        atMostOne_of_sublist (cleanupRoomRestHandler_answers_sublist code pid s) h⟩
  | leaveRest pid =>
      exact ⟨wkq_of_eq (leaveHandler_questions pid s) hwkq,
        atMostOne_of_sublist (leaveHandler_answers_sublist pid s) h⟩
  | socketLeave pid =>
      exact ⟨wkq_of_eq (cleanupPlayerSt_questions pid s) hwkq,
        atMostOne_of_sublist (cleanupPlayerSt_answers_sublist pid s) h⟩
  | socketCleanup code pid host =>
      cases host
      · exact ⟨hwkq, h⟩
      · exact ⟨wkq_of_sublist (cleanupRoomSt_questions_sublist code s) hwkq,
          atMostOne_of_sublist (cleanupRoomSt_answers_sublist code s) h⟩
  | socketStart code host =>
      cases host
      · exact ⟨hwkq, h⟩
      · show WKQuestions (socketStartQuiz code true s) ∧ AtMostOneAnswer (socketStartQuiz code true s)
        unfold socketStartQuiz
        simp only [if_true]
        rcases getQuizRoomByCode code s with _ | room
        · exact ⟨hwkq, h⟩
        · exact ⟨wkq_of_eq (updateQuizRoomSt_questions _ _ _) hwkq,
            atMostOne_of_eq (updateQuizRoomSt_answers _ _ _) h⟩
  | socketNext code host =>
      cases host
      · exact ⟨hwkq, h⟩
      · show WKQuestions (socketNextQuestion code true s) ∧
          AtMostOneAnswer (socketNextQuestion code true s)
        unfold socketNextQuestion
        simp only [if_true]
        rcases getQuizRoomByCode code s with _ | room
        · exact ⟨hwkq, h⟩
        · simp only
          by_cases hlt : room.currentQuestionIndex + 1 <
            (getQuestionsByRoomId room.id s).length
          · rw [if_pos hlt]
            exact ⟨wkq_of_eq (updateQuizRoomSt_questions _ _ _) hwkq,
              atMostOne_of_eq (updateQuizRoomSt_answers _ _ _) h⟩
          · rw [if_neg hlt]
            exact ⟨wkq_of_eq (updateQuizRoomSt_questions _ _ _) hwkq,
              atMostOne_of_eq (updateQuizRoomSt_answers _ _ _) h⟩
  | socketFinish code host =>
      cases host
      · exact ⟨hwkq, h⟩
      · show WKQuestions (socketQuizFinished code true s) ∧
          AtMostOneAnswer (socketQuizFinished code true s)
        unfold socketQuizFinished
        simp only [if_true]
        rcases getQuizRoomByCode code s with _ | room
        · exact ⟨hwkq, h⟩
        · exact ⟨wkq_of_eq (updateQuizRoomSt_questions _ _ _) hwkq,
            atMostOne_of_eq (updateQuizRoomSt_answers _ _ _) h⟩

/-- C2: a second submission by the same player for the same question is
rejected with a conflict (the alreadyAnswered / HTTP 400 result), leaves
the whole store — in particular the score and the answers — unchanged; and
every operation preserves the invariant that at most one Answer exists per
(player, question) pair (together with the well-keyedness of the questions
map it relies on), an invariant that holds in the empty store. -/
theorem c2_single_answer :
    (∀ (s : St) (req : SubmitAnswerRequest) (p : Player),
      getPlayerById req.playerId s = some p →
      hasPlayerAnswered req.playerId req.questionId s = true →
      submitAnswerHandler req s = (SubmitResult.alreadyAnswered, s)) ∧
    (∀ (op : Op) (s : St), WKQuestions s → AtMostOneAnswer s →
      WKQuestions (step op s) ∧ AtMostOneAnswer (step op s)) ∧
    (WKQuestions St.empty ∧ AtMostOneAnswer St.empty) := by
  refine ⟨?_, step_answerInv, ?_, ?_⟩
  · intro s req p hp ha
    unfold submitAnswerHandler
    rw [hp]
    simp only
    rw [if_pos ha]
  · intro e he
    simp [St.empty] at he
  · intro pid qid
    simp [St.empty, mapValues]

/-- C2 witness: in the concrete state where "pa" already answered question
1, a second submission is rejected and the store is unchanged. -/
theorem c2_single_answer_witness :
    submitAnswerHandler
      { playerId := "pa", questionId := 1, selectedAnswer := 0, timeToAnswer := 1 } c5State =
      (SubmitResult.alreadyAnswered, c5State) :=
  c2_single_answer.1 c5State
    { playerId := "pa", questionId := 1, selectedAnswer := 0, timeToAnswer := 1 }
    { id := 1, roomId := 1, name := "Ann", playerId := "pa", score := 100, isHost := false }
    (by decide) (by decide)

/-! ### C7: room-code generation and allocation -/

theorem generateRoomCode_shape (pick : Fin 6 → Fin 36) :
    (generateRoomCode pick).length = 6 ∧
    ∀ c ∈ (generateRoomCode pick).toList, c ∈ ROOM_CODE_CHARS := by
  have hmem : ∀ n < 36, ROOM_CODE_CHARS.getD n 'A' ∈ ROOM_CODE_CHARS := by decide
  constructor
  · show (String.mk ((List.finRange 6).map _)).length = 6
    simp [String.length]
  · intro c hc
    have hc' : c ∈ (List.finRange 6).map
        (fun i => ROOM_CODE_CHARS.getD (pick i).val 'A') := hc
    rcases List.mem_map.mp hc' with ⟨i, _, hi⟩
    rw [← hi]
    exact hmem (pick i).val (pick i).isLt

/-- C7: Create draws 6-character codes over the 36-character alphanumeric
alphabet and retries on collision; it fails with the 500 code-exhaustion
error exactly when each of the first 9 generated codes collides with a
stored room, leaving the store unchanged; on success the returned code was
free before the call and afterwards exactly one stored room bears it. -/
theorem c7_room_code_allocation (req : CreateQuizRequest) (picks : Nat → Fin 6 → Fin 36)
    (upstream : Option (List RawQuestion)) (s : St) (hwk : WKRooms s) :
    ((createQuizHandler req picks upstream s).1 = CreateResult.codeExhausted ↔
      ∀ k, k ≤ 8 → (getQuizRoomByCode (generateRoomCode (picks k)) s).isSome = true) ∧
    ((createQuizHandler req picks upstream s).1 = CreateResult.codeExhausted →
      (createQuizHandler req picks upstream s).2 = s) ∧
    (∀ code room, (createQuizHandler req picks upstream s).1 = CreateResult.ok code room →
      code.length = 6 ∧ (∀ c ∈ code.toList, c ∈ ROOM_CODE_CHARS) ∧
      getQuizRoomByCode code s = none ∧
      getQuizRoomByCode code (createQuizHandler req picks upstream s).2 = some room ∧
      (mapValues (createQuizHandler req picks upstream s).2.quizRooms).countP
        (fun r => decide (r.roomCode = code)) = 1) := by
  refine ⟨createQuizHandler_exhausted_iff req picks upstream s,
    createQuizHandler_exhausted_state req picks upstream s, ?_⟩
  intro code room h
  obtain ⟨hfresh, hid, hstatus, hrc, k, hk⟩ :=
    createQuizHandler_ok_room req picks upstream s code room h
  obtain ⟨hrooms, hcounter, hans, hrest⟩ :=
    createQuizHandler_ok_state req picks upstream s code room h
  have hget : mapGet code s.quizRooms = none := hfresh
  refine ⟨?_, ?_, hfresh, ?_, ?_⟩
  · rw [hk]
    exact (generateRoomCode_shape (picks k)).1
  · rw [hk]
    exact (generateRoomCode_shape (picks k)).2
  · show mapGet code (createQuizHandler req picks upstream s).2.quizRooms = some room
    rw [hrooms]
    exact mapGet_mapSet_self
  · rw [hrooms, mapSet_eq_append hget]
    unfold mapValues
    rw [List.map_append, List.countP_append]
    have h0 : (s.quizRooms.map Prod.snd).countP (fun r => decide (r.roomCode = code)) = 0 := by
      apply List.countP_eq_zero.mpr
      intro r hr hcontra
      rcases List.mem_map.mp hr with ⟨e, hem, hev⟩
      have hcode : r.roomCode = code := of_decide_eq_true hcontra
      apply mapGet_eq_none_iff.mp hget e hem
      rw [← hwk e hem, hev, hcode]
    rw [h0]
    simp [hrc]

/-- C7 witness: creating a room in the empty store with the all-A pick
oracle allocates the free code "AAAAAA" and stores the room under it. -/
theorem c7_room_code_allocation_witness :
    ("AAAAAA".length = 6) ∧ getQuizRoomByCode "AAAAAA" St.empty = none ∧
    getQuizRoomByCode "AAAAAA" (createQuizHandler exCreateReq exPicksA none St.empty).2 =
      some c3Room :=
  ⟨((c7_room_code_allocation exCreateReq exPicksA none St.empty (by unfold WKRooms; decide)).2.2
      "AAAAAA" c3Room (by decide)).1,
   ((c7_room_code_allocation exCreateReq exPicksA none St.empty (by unfold WKRooms; decide)).2.2
      "AAAAAA" c3Room (by decide)).2.2.1,
   ((c7_room_code_allocation exCreateReq exPicksA none St.empty (by unfold WKRooms; decide)).2.2
      "AAAAAA" c3Room (by decide)).2.2.2.1⟩

/-! ### C9: score accounting -/

/-- The stored score of an identity (0 when absent). -/
def playerScore (pid : String) (s : St) : Int :=
  match getPlayerById pid s with
  | some p => p.score
  | none => 0

/-- The points a submission response awarded (0 for every failure). -/
def resPoints : SubmitResult → Int
  | SubmitResult.ok _ pts _ _ => pts
  | _ => 0

def submitMany : List SubmitAnswerRequest → St → St
  | [], s => s
  | r :: rest, s => submitMany rest (submitAnswerHandler r s).2

def awardedPoints : List SubmitAnswerRequest → St → Int
  | [], _ => 0
  | r :: rest, s =>
      resPoints (submitAnswerHandler r s).1 + awardedPoints rest (submitAnswerHandler r s).2

/-- One submission either fails (state unchanged, zero points) or awards
pts ≥ 0 to exactly the submitting player, adding pts to that player's
stored score. -/
theorem submitAnswerHandler_score_cases (req : SubmitAnswerRequest) (s : St) :
    ((submitAnswerHandler req s).2 = s ∧ resPoints (submitAnswerHandler req s).1 = 0) ∨
    ∃ player pts, getPlayerById req.playerId s = some player ∧ 0 ≤ pts ∧
      resPoints (submitAnswerHandler req s).1 = pts ∧
      getPlayerById req.playerId (submitAnswerHandler req s).2 =
        some { player with score := player.score + pts } ∧
      (∀ pid, pid ≠ req.playerId →
        getPlayerById pid (submitAnswerHandler req s).2 = getPlayerById pid s) := by
  unfold submitAnswerHandler
  rcases hp : getPlayerById req.playerId s with _ | player
  · exact Or.inl ⟨rfl, rfl⟩
  · simp only
    by_cases ha : hasPlayerAnswered req.playerId req.questionId s = true
    · rw [if_pos ha]; exact Or.inl ⟨rfl, rfl⟩
    · rw [if_neg ha]
      rcases getQuestionById req.questionId s with _ | question
      · exact Or.inl ⟨rfl, rfl⟩
      · simp only
        by_cases hmm : question.roomId ≠ player.roomId
        · rw [if_pos hmm]; exact Or.inl ⟨rfl, rfl⟩
        · rw [if_neg hmm]
          right
          have hp' : mapGet req.playerId s.players = some player := hp
          refine ⟨player, _, rfl, ?_, rfl, ?_, ?_⟩
          · simp only [resPoints]
            by_cases hcor : decide (req.selectedAnswer = question.correctAnswer) = true
            · rw [if_pos hcor]
              have hmx : (0:Int) ≤ max 0 ((match getQuizRoomByPlayerId req.playerId s with
                  | some room => orDefaultInt room.timePerQuestion 10
                  | none => 10) - req.timeToAnswer) := le_max_left _ _
              omega
            · rw [if_neg hcor]
          · simp only [updatePlayerScoreSt, createAnswerSt, hp', mapGet_mapSet_self,
              getPlayerById, resPoints]
          · intro pid hne
            simp only [updatePlayerScoreSt, createAnswerSt, hp', getPlayerById, resPoints]
            rw [mapGet_mapSet_ne hne]

theorem submit_score_effect (req : SubmitAnswerRequest) (s : St) :
    playerScore req.playerId (submitAnswerHandler req s).2 =
      playerScore req.playerId s + resPoints (submitAnswerHandler req s).1 := by
  rcases submitAnswerHandler_score_cases req s with ⟨heq, hz⟩ | ⟨player, pts, hp, _, hres, hafter, _⟩
  · rw [heq, hz]
    omega
  · unfold playerScore
    rw [hp, hafter, hres]

theorem submit_points_nonneg (req : SubmitAnswerRequest) (s : St) :
    0 ≤ resPoints (submitAnswerHandler req s).1 := by
  rcases submitAnswerHandler_score_cases req s with ⟨_, hz⟩ | ⟨player, pts, _, hge, hres, _, _⟩
  · rw [hz]
  · rw [hres]
    exact hge

theorem submitMany_score (reqs : List SubmitAnswerRequest) (pid : String) :
    ∀ s : St, (∀ r ∈ reqs, r.playerId = pid) →
      playerScore pid (submitMany reqs s) = playerScore pid s + awardedPoints reqs s := by
  induction reqs with
  | nil =>
      intro s _
      simp [submitMany, awardedPoints]
  | cons r rest ih =>
      intro s hall
      have hpid : r.playerId = pid := hall r (List.mem_cons_self r rest)
      have hstep := submit_score_effect r s
      rw [hpid] at hstep
      show playerScore pid (submitMany rest (submitAnswerHandler r s).2) =
        playerScore pid s +
          (resPoints (submitAnswerHandler r s).1 + awardedPoints rest (submitAnswerHandler r s).2)
      rw [ih _ (fun r' hr' => hall r' (List.mem_cons_of_mem r hr')), hstep]
      omega

theorem cleanupPlayerSt_players_sublist (pid : String) (s : St) :
    (cleanupPlayerSt pid s).2.players.Sublist s.players := by
  rcases cleanupPlayerSt_players_cases pid s with h | h
  · rw [h]
  · rw [h]
    exact mapDelete_sublist _ _

theorem cleanupRoomRestHandler_players_sublist (code pid : String) (s : St) :
    (cleanupRoomRestHandler code pid s).2.players.Sublist s.players := by
  unfold cleanupRoomRestHandler
  rcases getQuizRoomByCode code s with _ | room
  · exact List.Sublist.refl _
  · simp only
    by_cases hh : room.hostId ≠ pid
    · rw [if_pos hh]
    · rw [if_neg hh]
      by_cases hb : (cleanupRoomSt code s).1 = true
      · rw [if_pos hb]; exact cleanupRoomSt_players_sublist _ _
      · rw [if_neg hb]; exact cleanupRoomSt_players_sublist _ _

theorem leaveHandler_players_sublist (pid : String) (s : St) :
    (leaveHandler pid s).2.players.Sublist s.players := by
  unfold leaveHandler
  rcases getPlayerById pid s with _ | p
  · exact List.Sublist.refl _
  · simp only
    by_cases hb : (cleanupPlayerSt pid s).1 = true
    · rw [if_pos hb]; exact cleanupPlayerSt_players_sublist _ _
    · rw [if_neg hb]; exact cleanupPlayerSt_players_sublist _ _

theorem socketStartQuiz_players (code : String) (host : Bool) (s : St) :
    (socketStartQuiz code host s).players = s.players := by
  cases host
  · rfl
  · unfold socketStartQuiz
    simp only [if_true]
    rcases getQuizRoomByCode code s with _ | room
    · rfl
    · exact updateQuizRoomSt_players _ _ _

theorem socketNextQuestion_players (code : String) (host : Bool) (s : St) :
    (socketNextQuestion code host s).players = s.players := by
  cases host
  · rfl
  · unfold socketNextQuestion
    simp only [if_true]
    rcases getQuizRoomByCode code s with _ | room
    · rfl
    · simp only
      by_cases hlt : room.currentQuestionIndex + 1 < (getQuestionsByRoomId room.id s).length
      · rw [if_pos hlt]; exact updateQuizRoomSt_players _ _ _
      · rw [if_neg hlt]; exact updateQuizRoomSt_players _ _ _

theorem socketQuizFinished_players (code : String) (host : Bool) (s : St) :
    (socketQuizFinished code host s).players = s.players := by
  cases host
  · rfl
  · unfold socketQuizFinished
    simp only [if_true]
    rcases getQuizRoomByCode code s with _ | room
    · rfl
    · exact updateQuizRoomSt_players _ _ _

theorem lookup_of_players_sublist {s s' : St} (hsub : s'.players.Sublist s.players)
    (hnd : PlayersNodup s) {pid : String} {r' : Player}
    (h : getPlayerById pid s' = some r') : getPlayerById pid s = some r' :=
  mapGet_of_mem_nodup hnd (hsub.subset (mapGet_some_mem h))

/-- After Join, the record stored under an identity is unchanged unless it
is the joining identity, which then carries a fresh score-0 membership of
the joined room, and previously belonged to no room or to a different
room. -/
theorem joinQuizHandler_player_lookup (req : JoinQuizRequest) (s : St) (pid : String) :
    getPlayerById pid (joinQuizHandler req s).2 = getPlayerById pid s ∨
    ∃ room newP, pid = req.playerId ∧
      getQuizRoomByCode req.roomCode s = some room ∧
      getPlayerById pid (joinQuizHandler req s).2 = some newP ∧
      newP.roomId = room.id ∧ newP.score = 0 ∧
      (getPlayerById pid s = none ∨
        ∃ p0, getPlayerById pid s = some p0 ∧ p0.roomId ≠ room.id) := by
  unfold joinQuizHandler
  rcases hg : getQuizRoomByCode req.roomCode s with _ | room
  · exact Or.inl rfl
  · simp only
    by_cases hst : room.status ≠ RoomStatus.waiting
    · rw [if_pos hst]; exact Or.inl rfl
    · rw [if_neg hst]
      rcases hp : getPlayerById req.playerId s with _ | p
      · by_cases hpe : pid = req.playerId
        · subst hpe
          right
          have hlook : getPlayerById req.playerId (joinFinish req room s).2 =
              some ((createPlayerSt ⟨room.id, req.name, req.playerId, 0, false⟩ s).1) :=
            mapGet_mapSet_self
          exact ⟨room, _, rfl, rfl, hlook, (rfl : room.id = room.id),
            (rfl : (0:Int) = 0), Or.inl hp⟩
        · left
          show getPlayerById pid (joinFinish req room s).2 = _
          unfold joinFinish getPlayerById
          simp only [createPlayerSt]
          rw [mapGet_mapSet_ne hpe]
      · simp only
        by_cases hrm : p.roomId = room.id
        · rw [if_pos hrm]; exact Or.inl rfl
        · rw [if_neg hrm]
          by_cases hpe : pid = req.playerId
          · subst hpe
            right
            have hlook : getPlayerById req.playerId
                (joinFinish req room (cleanupPlayerSt req.playerId s).2).2 =
              some ((createPlayerSt ⟨room.id, req.name, req.playerId, 0, false⟩
                (cleanupPlayerSt req.playerId s).2).1) :=
              mapGet_mapSet_self
            exact ⟨room, _, rfl, rfl, hlook, (rfl : room.id = room.id),
              (rfl : (0:Int) = 0), Or.inr ⟨p, hp, hrm⟩⟩
          · left
            show getPlayerById pid (joinFinish req room (cleanupPlayerSt req.playerId s).2).2 = _
            unfold joinFinish getPlayerById
            simp only [createPlayerSt]
            rw [mapGet_mapSet_ne hpe]
            rcases cleanupPlayerSt_players_cases req.playerId s with hc | hc
            · rw [hc]
            · rw [hc, mapGet_mapDelete_ne hpe]

/-- No single operation lowers the stored score of a player whose room
membership it does not change. -/
theorem step_player_monotone (op : Op) (s : St) (pid : String) (r r' : Player)
    (hinv : StInv s) (hr : getPlayerById pid s = some r)
    (hr' : getPlayerById pid (step op s) = some r') (hroom : r'.roomId = r.roomId) :
    r.score ≤ r'.score := by
  cases op with
  | createQuiz req picks upstream =>
      rcases createQuizHandler_result_cases req picks upstream s with hres | ⟨code, room, hres⟩
      · rw [show step (Op.createQuiz req picks upstream) s =
            (createQuizHandler req picks upstream s).2 from rfl,
          createQuizHandler_exhausted_state _ _ _ _ hres, hr] at hr'
        injection hr' with h
        rw [h]
      · obtain ⟨_, _, _, hframe, newP, hlook, hnroom, _, hnscore, _⟩ :=
          createQuizHandler_ok_state req picks upstream s code room hres
        by_cases hpe : pid = req.hostId
        · subst hpe
          rw [show step (Op.createQuiz req picks upstream) s =
              (createQuizHandler req picks upstream s).2 from rfl, hlook] at hr'
          injection hr' with h
          exfalso
          have hlt : r.roomId < s.currentRoomId := hinv.2.1 r (mapGet_some_val_mem hr)
          rw [← h, hnroom] at hroom
          omega
        · rw [show step (Op.createQuiz req picks upstream) s =
              (createQuizHandler req picks upstream s).2 from rfl, hframe pid hpe, hr] at hr'
          injection hr' with h
          rw [h]
  | joinQuiz req =>
      rcases joinQuizHandler_player_lookup req s pid with hsame |
        ⟨room, newP, hpe, hg, hlook, hnroom, hnscore, hprev⟩
      · rw [show step (Op.joinQuiz req) s = (joinQuizHandler req s).2 from rfl,
          hsame, hr] at hr'
        injection hr' with h
        rw [h]
      · rw [show step (Op.joinQuiz req) s = (joinQuizHandler req s).2 from rfl, hlook] at hr'
        injection hr' with h
        rcases hprev with hnone | ⟨p0, hp0, hp0r⟩
        · rw [hr] at hnone
          exact absurd hnone (by simp)
        · rw [hr] at hp0
          injection hp0 with h0
          exfalso
          apply hp0r
          rw [← h0, ← hroom, ← h, hnroom]
  | submitAnswer req =>
      rcases submitAnswerHandler_score_cases req s with ⟨heq, _⟩ |
        ⟨player, pts, hp, hge, _, hafter, hframe⟩
      · rw [show step (Op.submitAnswer req) s = (submitAnswerHandler req s).2 from rfl,
          heq, hr] at hr'
        injection hr' with h
        rw [h]
      · by_cases hpe : pid = req.playerId
        · subst hpe
          rw [hr] at hp
          injection hp with h0
          rw [show step (Op.submitAnswer req) s = (submitAnswerHandler req s).2 from rfl,
            hafter] at hr'
          injection hr' with h
          rw [← h]
          show r.score ≤ player.score + pts
          rw [h0]
          omega
        · rw [show step (Op.submitAnswer req) s = (submitAnswerHandler req s).2 from rfl,
            hframe pid hpe, hr] at hr'
          injection hr' with h
          rw [h]
  | clearAnswers pid0 =>
      have heq : getPlayerById pid (clearAnswersForPlayerSt pid0 s) =
          getPlayerById pid s := rfl
      rw [show step (Op.clearAnswers pid0) s = clearAnswersForPlayerSt pid0 s from rfl,
        heq, hr] at hr'
      injection hr' with h
      rw [h]
  | cleanupRest code pid0 =>
      have h2 := lookup_of_players_sublist (cleanupRoomRestHandler_players_sublist code pid0 s)
        hinv.2.2 hr'
      rw [hr] at h2
      injection h2 with h
      rw [← h]
  | leaveRest pid0 =>
      have h2 := lookup_of_players_sublist (leaveHandler_players_sublist pid0 s) hinv.2.2 hr'
      rw [hr] at h2
      injection h2 with h
      rw [← h]
  | socketLeave pid0 =>
      have h2 := lookup_of_players_sublist (cleanupPlayerSt_players_sublist pid0 s)
        hinv.2.2 hr'
      rw [hr] at h2
      injection h2 with h
      rw [← h]
  | socketCleanup code pid0 host =>
      cases host
      · rw [show step (Op.socketCleanup code pid0 false) s = s from rfl, hr] at hr'
        injection hr' with h
        rw [h]
      · have h2 := lookup_of_players_sublist
          (show (cleanupRoomSt code s).2.players.Sublist s.players from
            cleanupRoomSt_players_sublist code s) hinv.2.2 hr'
        rw [hr] at h2
        injection h2 with h
        rw [← h]
  | socketStart code host =>
      have heq : getPlayerById pid (socketStartQuiz code host s) = getPlayerById pid s := by
        unfold getPlayerById
        rw [socketStartQuiz_players]
      rw [show step (Op.socketStart code host) s = socketStartQuiz code host s from rfl,
        heq, hr] at hr'
      injection hr' with h
      rw [h]
  | socketNext code host =>
      have heq : getPlayerById pid (socketNextQuestion code host s) = getPlayerById pid s := by
        unfold getPlayerById
        rw [socketNextQuestion_players]
      rw [show step (Op.socketNext code host) s = socketNextQuestion code host s from rfl,
        heq, hr] at hr'
      injection hr' with h
      rw [h]
  | socketFinish code host =>
      have heq : getPlayerById pid (socketQuizFinished code host s) = getPlayerById pid s := by
        unfold getPlayerById
        rw [socketQuizFinished_players]
      rw [show step (Op.socketFinish code host) s = socketQuizFinished code host s from rfl,
        heq, hr] at hr'
      injection hr' with h
      rw [h]

/-- Every stored score is non-negative. -/
def ScoresNonneg (s : St) : Prop :=
  ∀ p ∈ mapValues s.players, 0 ≤ p.score

theorem createQuizHandler_players_values (req : CreateQuizRequest)
    (picks : Nat → Fin 6 → Fin 36) (upstream : Option (List RawQuestion)) (s : St) :
    ∀ p ∈ mapValues (createQuizHandler req picks upstream s).2.players,
      p ∈ mapValues s.players ∨ p.score = 0 := by
  simp only [createQuizHandler]
  by_cases hex : (allocRoomCode (fun k => generateRoomCode (picks k))
      (fun code => (getQuizRoomByCode code s).isSome)).1 ≥ 10
  · rw [if_pos hex]
    intro p hp
    exact Or.inl hp
  · rw [if_neg hex]
    intro p hp
    rcases mem_values_mapSet hp with h' | h'
    · right
      rw [h']
    · left
      rw [createQuestionsSt_players] at h'
      exact h'

theorem joinQuizHandler_players_values (req : JoinQuizRequest) (s : St) :
    ∀ p ∈ mapValues (joinQuizHandler req s).2.players,
      p ∈ mapValues s.players ∨ p.score = 0 := by
  unfold joinQuizHandler
  rcases getQuizRoomByCode req.roomCode s with _ | room
  · intro p hp; exact Or.inl hp
  · simp only
    by_cases hst : room.status ≠ RoomStatus.waiting
    · rw [if_pos hst]; intro p hp; exact Or.inl hp
    · rw [if_neg hst]
      rcases getPlayerById req.playerId s with _ | p0
      · intro p hp
        rcases mem_values_mapSet hp with h' | h'
        · right; rw [h']
        · exact Or.inl h'
      · simp only
        by_cases hrm : p0.roomId = room.id
        · rw [if_pos hrm]; intro p hp; exact Or.inl hp
        · rw [if_neg hrm]
          intro p hp
          rcases mem_values_mapSet hp with h' | h'
          · right; rw [h']
          · left
            rcases List.mem_map.mp h' with ⟨e, hem, hev⟩
            exact List.mem_map.mpr
              ⟨e, (cleanupPlayerSt_players_sublist req.playerId s).subset hem, hev⟩

theorem submitAnswerHandler_players_values (req : SubmitAnswerRequest) (s : St) :
    ∀ p' ∈ mapValues (submitAnswerHandler req s).2.players,
      p' ∈ mapValues s.players ∨
      ∃ p0 pts, p0 ∈ mapValues s.players ∧ 0 ≤ pts ∧ p'.score = p0.score + pts := by
  rcases submitAnswerHandler_score_cases req s with ⟨heq, _⟩ |
    ⟨player, pts, hp, hge, _, hafter, hframe⟩
  · rw [heq]
    intro p' hp'
    exact Or.inl hp'
  · -- the only modified record is the submitting player's, updated in place
    intro p' hp'
    -- decompose the ok-path state
    unfold submitAnswerHandler at hp'
    rcases hpm : getPlayerById req.playerId s with _ | player1
    · rw [hpm] at hp'
      exact Or.inl hp'
    · rw [hpm] at hp'
      simp only at hp'
      by_cases ha : hasPlayerAnswered req.playerId req.questionId s = true
      · rw [if_pos ha] at hp'
        exact Or.inl hp'
      · rw [if_neg ha] at hp'
        rcases hq2 : getQuestionById req.questionId s with _ | question
        · rw [hq2] at hp'
          exact Or.inl hp'
        · rw [hq2] at hp'
          simp only at hp'
          by_cases hmm : question.roomId ≠ player1.roomId
          · rw [if_pos hmm] at hp'
            exact Or.inl hp'
          · rw [if_neg hmm] at hp'
            have hp1 : mapGet req.playerId s.players = some player1 := hpm
            simp only [updatePlayerScoreSt, createAnswerSt, hp1] at hp'
            rcases mem_values_mapSet hp' with h' | h'
            · right
              rw [h']
              refine ⟨player1,
                (if decide (req.selectedAnswer = question.correctAnswer) = true then
                  100 + (max 0 ((match getQuizRoomByPlayerId req.playerId s with
                    | some room => orDefaultInt room.timePerQuestion 10
                    | none => 10) - req.timeToAnswer)) * 10 else 0),
                mapGet_some_val_mem hp1, ?_, ?_⟩
              · by_cases hcor : decide (req.selectedAnswer = question.correctAnswer) = true
                · rw [if_pos hcor]
                  have hmx : (0:Int) ≤ max 0 ((match getQuizRoomByPlayerId req.playerId s with
                      | some room => orDefaultInt room.timePerQuestion 10
                      | none => 10) - req.timeToAnswer) := le_max_left _ _
                  omega
                · rw [if_neg hcor]
              · exact rfl
            · exact Or.inl h'

theorem scoresNonneg_step (op : Op) (s : St) (h : ScoresNonneg s) :
    ScoresNonneg (step op s) := by
  cases op with
  | createQuiz req picks upstream =>
      intro p hp
      rcases createQuizHandler_players_values req picks upstream s p hp with h' | h'
      · exact h p h'
      · rw [h']
  | joinQuiz req =>
      intro p hp
      rcases joinQuizHandler_players_values req s p hp with h' | h'
      · exact h p h'
      · rw [h']
  | submitAnswer req =>
      intro p hp
      rcases submitAnswerHandler_players_values req s p hp with h' | ⟨p0, pts, hp0, hge, hsc⟩
      · exact h p h'
      · rw [hsc]
        have := h p0 hp0
        omega
  | clearAnswers pid =>
      intro p hp
      exact h p hp
  | cleanupRest code pid =>
      intro p hp
      rcases List.mem_map.mp hp with ⟨e, hem, hev⟩
      exact h p (List.mem_map.mpr
        ⟨e, (cleanupRoomRestHandler_players_sublist code pid s).subset hem, hev⟩)
  | leaveRest pid =>
      intro p hp
      rcases List.mem_map.mp hp with ⟨e, hem, hev⟩
      exact h p (List.mem_map.mpr
        ⟨e, (leaveHandler_players_sublist pid s).subset hem, hev⟩)
  | socketLeave pid =>
      intro p hp
      rcases List.mem_map.mp hp with ⟨e, hem, hev⟩
      exact h p (List.mem_map.mpr
        ⟨e, (cleanupPlayerSt_players_sublist pid s).subset hem, hev⟩)
  | socketCleanup code pid host =>
      cases host
      · intro p hp; exact h p hp
      · intro p hp
        rcases List.mem_map.mp hp with ⟨e, hem, hev⟩
        exact h p (List.mem_map.mpr
          ⟨e, (cleanupRoomSt_players_sublist code s).subset hem, hev⟩)
  | socketStart code host =>
      intro p hp
      rw [show (step (Op.socketStart code host) s).players =
        s.players from socketStartQuiz_players code host s] at hp
      exact h p hp
  | socketNext code host =>
      intro p hp
      rw [show (step (Op.socketNext code host) s).players =
        s.players from socketNextQuestion_players code host s] at hp
      exact h p hp
  | socketFinish code host =>
      intro p hp
      rw [show (step (Op.socketFinish code host) s).players =
        s.players from socketQuizFinished_players code host s] at hp
      exact h p hp

/-- C9: (i) a player's cumulative score after a sequence of submissions
equals the starting score plus the sum of the points awarded per submission
(failures award 0); (ii) every single submission awards non-negative
points; (iii) no operation decreases the score of a player that keeps its
room membership (same roomId), under the reachability invariant, which is
preserved by every operation and holds initially; (iv) all stored scores
stay non-negative, an invariant preserved by every operation from the empty
store. -/
theorem c9_monotonic_score :
    (∀ (reqs : List SubmitAnswerRequest) (pid : String) (s : St),
      (∀ r ∈ reqs, r.playerId = pid) →
      playerScore pid (submitMany reqs s) = playerScore pid s + awardedPoints reqs s) ∧
    (∀ (req : SubmitAnswerRequest) (s : St), 0 ≤ resPoints (submitAnswerHandler req s).1) ∧
    (∀ (op : Op) (s : St) (pid : String) (r r' : Player), StInv s →
      getPlayerById pid s = some r → getPlayerById pid (step op s) = some r' →
      r'.roomId = r.roomId → r.score ≤ r'.score) ∧
    (∀ (op : Op) (s : St), StInv s → StInv (step op s)) ∧ StInv St.empty ∧
    (∀ (op : Op) (s : St), ScoresNonneg s → ScoresNonneg (step op s)) ∧
    ScoresNonneg St.empty := by
  refine ⟨fun reqs pid s h => submitMany_score reqs pid s h, submit_points_nonneg,
    fun op s pid r r' hinv hr hr' hroom => step_player_monotone op s pid r r' hinv hr hr' hroom,
    step_StInv, stInv_empty, scoresNonneg_step, ?_⟩
  intro p hp
  simp [St.empty, mapValues] at hp

/-- C9 witness: one successful concrete submission adds exactly the awarded
220 points to the player's score. -/
theorem c9_monotonic_score_witness :
    playerScore "p1" (submitMany
      [{ playerId := "p1", questionId := 1, selectedAnswer := 2, timeToAnswer := 3 }] c3State) =
      playerScore "p1" c3State + awardedPoints
      [{ playerId := "p1", questionId := 1, selectedAnswer := 2, timeToAnswer := 3 }] c3State :=
  c9_monotonic_score.1
    [{ playerId := "p1", questionId := 1, selectedAnswer := 2, timeToAnswer := 3 }]
    "p1" c3State (by decide)

/-! ### C10: createPlayer replaces in place, keyed by playerId -/

theorem countP_key_mapSet {α β : Type} [DecidableEq α] (k : α) (v : β) :
    ∀ (m : List (α × β)), (m.map Prod.fst).Nodup →
      ((mapSet k v m).countP (fun e => decide (e.1 = k))) = 1 := by
  intro m
  induction m with
  | nil =>
      intro _
      simp [mapSet]
  | cons e rest ih =>
      intro hnd
      simp only [List.map_cons, List.nodup_cons] at hnd
      by_cases he : e.1 = k
      · simp only [mapSet, he, if_pos]
        rw [List.countP_cons]
        have h0 : rest.countP (fun e => decide (e.1 = k)) = 0 := by
          apply List.countP_eq_zero.mpr
          intro e' he' hc
          apply hnd.1
          rw [he, ← of_decide_eq_true hc]
          exact List.mem_map.mpr ⟨e', he', rfl⟩
        simp [h0]
      · simp only [mapSet, he, if_neg, if_false]
        rw [List.countP_cons]
        rw [ih hnd.2]
        simp [he]

/-- C10: `createPlayer` with an already-registered identity token silently
replaces the stored Player record in place — the players map is keyed by
playerId, so under the map's no-duplicate-keys discipline exactly one entry
carries the token — while rooms, questions and answers are untouched; in
particular, on the create-room path with a hostId that is already a player
of another room, the prior record is overwritten with the fresh host record
and the replaced player's existing Answer records all remain stored. -/
theorem c10_create_player_replaces :
    (∀ (ins : InsertPlayer) (s : St),
      (createPlayerSt ins s).2.quizRooms = s.quizRooms ∧
      (createPlayerSt ins s).2.questions = s.questions ∧
      (createPlayerSt ins s).2.answers = s.answers ∧
      getPlayerById ins.playerId (createPlayerSt ins s).2 = some (createPlayerSt ins s).1 ∧
      (∀ pid, pid ≠ ins.playerId →
        getPlayerById pid (createPlayerSt ins s).2 = getPlayerById pid s) ∧
      ((s.players.map Prod.fst).Nodup →
        (((createPlayerSt ins s).2.players.map Prod.fst).Nodup ∧
        ((createPlayerSt ins s).2.players.countP
          (fun e => decide (e.1 = ins.playerId))) = 1))) ∧
    (∀ (req : CreateQuizRequest) (picks : Nat → Fin 6 → Fin 36)
       (upstream : Option (List RawQuestion)) (s : St) (code : String) (room : QuizRoom),
      (createQuizHandler req picks upstream s).1 = CreateResult.ok code room →
      (createQuizHandler req picks upstream s).2.answers = s.answers ∧
      ∃ newP : Player,
        getPlayerById req.hostId (createQuizHandler req picks upstream s).2 = some newP ∧
        newP.score = 0 ∧ newP.isHost = true ∧ newP.playerId = req.hostId ∧
        newP.roomId = s.currentRoomId) := by
  constructor
  · intro ins s
    refine ⟨rfl, rfl, rfl, mapGet_mapSet_self, ?_, ?_⟩
    · intro pid hne
      show mapGet pid (mapSet ins.playerId _ s.players) = _
      rw [mapGet_mapSet_ne hne]
      rfl
    · intro hnd
      exact ⟨keys_mapSet_nodup hnd, countP_key_mapSet ins.playerId _ s.players hnd⟩
  · intro req picks upstream s code room h
    obtain ⟨_, _, hans, _, newP, hlook, hroomId, hpid, hscore, hhost⟩ :=
      createQuizHandler_ok_state req picks upstream s code room h
    exact ⟨hans, newP, hlook, hscore, hhost, hpid, hroomId⟩

/-- C10 witness: creating a room with hostId "pa", while "pa" is already a
player of room 1 with a stored answer, leaves the answers map unchanged. -/
theorem c10_create_player_replaces_witness :
    (createQuizHandler { topic := "T", questionCount := 5, timePerQuestion := 15, hostId := "pa" }
      exPicksA none c5State).2.answers = c5State.answers :=
  (c10_create_player_replaces.2
    { topic := "T", questionCount := 5, timePerQuestion := 15, hostId := "pa" }
    exPicksA none c5State "AAAAAA"
    { id := 2, roomCode := "AAAAAA", hostId := "pa", topic := "T", questionCount := 5
      timePerQuestion := 15, status := RoomStatus.waiting, currentQuestionIndex := 0 }
    (by decide)).1

end QuizGen
